import Mathlib

/-!
# mob: tracker coordinator, frame relay loops and handshake handler

A shallow embedding of `tracker/tracker.go` and of the receive, decode and
handshake loops of `client/client.go`, with the properties of the
specification stated over it.

Conventions of the embedding.

* A Go `map[string]T` is an association list; the value of a key is the value of
  its first entry.  `for k := range m` visits the keys in an order Go leaves
  unspecified, so every function that ranges over the membership table takes the
  visiting order `keys` as an argument, and theorems quantify over every order
  that `IsRangeOrder` admits.
* `int64` counters are `Int` values wrapped by `wrapInt64` after each
  `atomic.AddInt64`.
* A run-time panic or `log.Fatal` is the result `none`.
* Remote calls, datagram writes and spawned tasks are returned as a trace.
-/

namespace Mob

/-! ## Go maps -/

/-- Association list standing for a Go `map[string]V`. -/
abbrev GoMap (V : Type) := List (String × V)

/-- Lookup `m[k]` with presence: the first entry for `k`. -/
def mapFind {V : Type} : GoMap V → String → Option V
  | [], _ => none
  | (k', v) :: m, k => if k' = k then some v else mapFind m k

/-- Assignment `m[k] = v`. -/
def mapSet {V : Type} (m : GoMap V) (k : String) (v : V) : GoMap V :=
  (k, v) :: m.filter (fun e => decide (e.1 ≠ k))

/-- Builtin `delete(m, k)`. -/
def mapDelete {V : Type} (m : GoMap V) (k : String) : GoMap V :=
  m.filter (fun e => decide (e.1 ≠ k))

/-- Key set of the map, each key once. -/
def mapKeys {V : Type} (m : GoMap V) : List String :=
  (m.map Prod.fst).dedup

/-- The orders in which `for k := range m` may visit the keys of `m`. -/
def IsRangeOrder {V : Type} (m : GoMap V) (keys : List String) : Prop :=
  keys.Perm (mapKeys m)

/-- Membership table value `peerMap[k]`: the zero value (nil slice) when `k` is absent. -/
def peerSongs (peerMap : GoMap (List String)) (k : String) : List String :=
  (mapFind peerMap k).getD []

/-! ## int64 counters -/

/-- Two's complement wrap-around of an `int64`. -/
def wrapInt64 (v : Int) : Int :=
  (v + 2 ^ 63) % 2 ^ 64 - 2 ^ 63

/-- Value stored by `atomic.AddInt64(&x, d)`. -/
def addInt64 (x d : Int) : Int :=
  wrapInt64 (x + d)

/-! ## tracker/tracker.go -/

/-- Package-level variables of the tracker. -/
structure Tracker where
  peerMap : GoMap (List String)
  songQueue : List String
  currSong : String
  clientsPlaying : Int
  doneResponses : Int
deriving DecidableEq

/-- State set up at the top of `main`. -/
def Tracker.init : Tracker :=
  { peerMap := [], songQueue := [], currSong := "", clientsPlaying := 0, doneResponses := 0 }

/-- Calls the tracker makes back to the calling client. -/
inductive Directive where
  | seed (song : String)
  | listenForMp3
  | startPlaying
deriving DecidableEq

/-- Handler `join`. -/
def join (t : Tracker) (ip : String) (list : List String) : Tracker :=
  { t with peerMap := mapSet t.peerMap ip list }

/-- Handler `leave`. -/
def leave (t : Tracker) (ip : String) : Tracker :=
  { t with peerMap := mapDelete t.peerMap ip }

/-- First loop pair of `getSongList`: the keys are collected in range order and the
song slices of the keys are appended one after the other. -/
def collectSongs (peerMap : GoMap (List String)) (keys : List String) : List String :=
  keys.foldl (fun songs k => songs ++ peerSongs peerMap k) []

/-- Last loop of `getSongList`: `encountered` holds the keys set to `true`. -/
def uniqueLoop : List String → List String → List String → List String
  | [], _, result => result
  | s :: songs, encountered, result =>
    if s ∈ encountered then uniqueLoop songs encountered result
    else uniqueLoop songs (s :: encountered) (result ++ [s])

/-- Function `getSongList`, for the range order `keys`. -/
def getSongList (peerMap : GoMap (List String)) (keys : List String) : List String :=
  uniqueLoop (collectSongs peerMap keys) [] []

/-- Handler `list-songs`: the reply. -/
def listSongs (t : Tracker) (keys : List String) : List String :=
  getSongList t.peerMap keys

/-- Handler `list-peers`: the reply, for the range order `keys`. -/
def listPeers (_t : Tracker) (keys : List String) : List String :=
  keys.foldl (fun acc k => acc ++ [k]) []

/-- Loop of handler `play` over the song list, with its `break`. -/
def playLoop (arg : String) (songQueue : List String) : List String → List String
  | [] => songQueue
  | song :: rest => if arg = song then songQueue ++ [arg] else playLoop arg songQueue rest

/-- Handler `play`. -/
def play (t : Tracker) (keys : List String) (arg : String) : Tracker :=
  { t with songQueue := playLoop arg t.songQueue (getSongList t.peerMap keys) }

/-- Loop of handler `ping` over the caller's songs: `true` when it returns from
inside the loop, after the `seed` call. -/
def hasCurrSong (currSong : String) : List String → Bool
  | [] => false
  | song :: rest => if song = currSong then true else hasCurrSong currSong rest

/-- Handler `ping`: the new state and the calls made to the caller. -/
def ping (t : Tracker) (ip : String) : Tracker × List Directive :=
  if t.doneResponses ≠ 0 then (t, [])
  else
    let t1 : Tracker :=
      match t.songQueue with
      | [] => t
      | head :: _ => if t.currSong = "" then { t with currSong := head } else t
    if t1.currSong ≠ "" then
      if hasCurrSong t1.currSong (peerSongs t1.peerMap ip) then
        (t1, [Directive.seed t1.currSong])
      else (t1, [Directive.listenForMp3])
    else (t1, [])

/-- Handler `ready-to-play`. -/
def readyToPlay (t : Tracker) : Tracker × List Directive :=
  ({ t with clientsPlaying := addInt64 t.clientsPlaying 1 }, [Directive.startPlaying])

/-- Handler `done-playing`.  The slice expression `songQueue[1:]` panics on an
empty queue. -/
def donePlaying (t : Tracker) : Option Tracker :=
  let clientsPlaying := addInt64 t.clientsPlaying (-1)
  let doneResponses := addInt64 t.doneResponses 1
  if clientsPlaying = 0 then
    match t.songQueue with
    | [] => none
    | _ :: rest =>
      some { peerMap := t.peerMap, songQueue := rest, currSong := "",
             clientsPlaying := clientsPlaying, doneResponses := 0 }
  else
    some { t with clientsPlaying := clientsPlaying, doneResponses := doneResponses }

/-! ## client/client.go: frame loops -/

/-- One byte of a frame. -/
abbrev Byte := Nat

/-- Capacity of the global `songBuf`. -/
def songBufSize : Nat := 20 * 1024 * 1024

/-- What a frame loop does, in program order. -/
inductive RelayEvent where
  | readyToPlay
  | write (conn : String) (bytes : List Byte)
  | store (frame : List Byte)
deriving DecidableEq

/-- How a frame loop is left: the loop condition `connectedToTracker` is found
false, or the blocking read (decode) of the next iteration fails. -/
inductive LoopEnd where
  | disconnected
  | readFailed
deriving DecidableEq

/-- Test at the head of both frame loops. -/
def readyCheck (prebufferedFrames : Nat) : List RelayEvent :=
  if prebufferedFrames = 300 then [RelayEvent.readyToPlay] else []

/-- Writes of one iteration: `for _, c := range peerToSeedees { c.Write(bytes) }`. -/
def relayWrites (relays : List String) (bytes : List Byte) : List RelayEvent :=
  relays.map (fun c => RelayEvent.write c bytes)

/-- Copy loop `for i := 0; i < n; i++ { songBuf[currIndex + i] = buf[i] }`, from
index `i` with `todo` iterations left; an index out of range panics. -/
def copyFrom (buf : List Byte) (currIndex : Nat) : Nat → Nat → List Byte → Option (List Byte)
  | _, 0, songBuf => some songBuf
  | i, todo + 1, songBuf =>
    if currIndex + i < songBuf.length then
      match buf[i]? with
      | some b => copyFrom buf currIndex (i + 1) todo (songBuf.set (currIndex + i) b)
      | none => none
    else none

/-- The whole copy loop for `n` bytes. -/
def copyFrame (songBuf : List Byte) (currIndex : Nat) (buf : List Byte) (n : Nat) :
    Option (List Byte) :=
  copyFrom buf currIndex 0 n songBuf

/-- Call `mp3Conn.ReadFrom(buf)` on a fresh `make([]byte, 2048)`: the byte count `n`
and the buffer afterwards. -/
def readFrom (payload : List Byte) : Nat × List Byte :=
  let n := min payload.length 2048
  (n, payload.take 2048 ++ List.replicate (2048 - n) 0)

/-- One datagram read by `listenForMp3`: the host part of the sender address, the
payload, and the range order of `peerToSeedees` when it is handled. -/
structure Inbound where
  addr : String
  payload : List Byte
  relays : List String
deriving DecidableEq

/-- Local variables of `listenForMp3` and the global `songBuf`. -/
structure Listener where
  prebufferedFrames : Nat
  currIndex : Nat
  seeder : String
  songBuf : List Byte
deriving DecidableEq

/-- One iteration of the loop of `listenForMp3` whose read succeeds. -/
def listenIter (st : Listener) (d : Inbound) : Option (Listener × List RelayEvent) :=
  let ready := readyCheck st.prebufferedFrames
  let r := readFrom d.payload
  let seeder := if st.seeder = "" then d.addr else st.seeder
  if d.addr ≠ seeder then some ({ st with seeder := seeder }, ready)
  else
    match copyFrame st.songBuf st.currIndex r.2 r.1 with
    | none => none
    | some songBuf =>
      some ({ prebufferedFrames := st.prebufferedFrames + 1, currIndex := st.currIndex + r.1,
              seeder := seeder, songBuf := songBuf },
            ready ++ relayWrites d.relays r.2 ++ [RelayEvent.store (r.2.take r.1)])

/-- Loop of `listenForMp3`. -/
def listenLoop : Listener → List Inbound → LoopEnd → Option (Listener × List RelayEvent)
  | st, [], LoopEnd.disconnected => some (st, [])
  | st, [], LoopEnd.readFailed => some (st, readyCheck st.prebufferedFrames)
  | st, d :: ds, e =>
    match listenIter st d with
    | none => none
    | some (st1, ev1) =>
      match listenLoop st1 ds e with
      | none => none
      | some (st2, ev2) => some (st2, ev1 ++ ev2)

/-- Function `listenForMp3` from its local declarations on. -/
def listenForMp3 (songBuf : List Byte) (ds : List Inbound) (e : LoopEnd) :
    Option (Listener × List RelayEvent) :=
  listenLoop { prebufferedFrames := 1, currIndex := 0, seeder := "", songBuf := songBuf } ds e

/-- One frame decoded by `seedToPeers`, with the range order of `peerToSeedees`
when it is handled. -/
structure Decoded where
  frame_bytes : List Byte
  relays : List String
deriving DecidableEq

/-- Local variables of the decode loop of `seedToPeers` and the global `songBuf`. -/
structure Seeding where
  prebufferedFrames : Nat
  currIndex : Nat
  songBuf : List Byte
deriving DecidableEq

/-- One iteration of the decode loop whose `Decode` succeeds. -/
def seedIter (st : Seeding) (f : Decoded) : Option (Seeding × List RelayEvent) :=
  let ready := readyCheck st.prebufferedFrames
  match copyFrame st.songBuf st.currIndex f.frame_bytes f.frame_bytes.length with
  | none => none
  | some songBuf =>
    some ({ prebufferedFrames := st.prebufferedFrames + 1,
            currIndex := st.currIndex + f.frame_bytes.length, songBuf := songBuf },
          ready ++ relayWrites f.relays f.frame_bytes ++ [RelayEvent.store f.frame_bytes])

/-- Decode loop of `seedToPeers`. -/
def seedLoop : Seeding → List Decoded → LoopEnd → Option (Seeding × List RelayEvent)
  | st, [], LoopEnd.disconnected => some (st, [])
  | st, [], LoopEnd.readFailed => some (st, readyCheck st.prebufferedFrames)
  | st, f :: fs, e =>
    match seedIter st f with
    | none => none
    | some (st1, ev1) =>
      match seedLoop st1 fs e with
      | none => none
      | some (st2, ev2) => some (st2, ev1 ++ ev2)

/-- Source-seeder branch of `seedToPeers` from its local declarations on. -/
def seedToPeers (songBuf : List Byte) (fs : List Decoded) (e : LoopEnd) :
    Option (Seeding × List RelayEvent) :=
  seedLoop { prebufferedFrames := 0, currIndex := 0, songBuf := songBuf } fs e

/-- Number of `ready-to-play` calls in a trace. -/
def readyCount (tr : List RelayEvent) : Nat :=
  tr.count RelayEvent.readyToPlay

/-- Number of frames stored in `songBuf` in a trace. -/
def storeCount : List RelayEvent → Nat
  | [] => 0
  | RelayEvent.store _ :: tr => storeCount tr + 1
  | _ :: tr => storeCount tr

/-- For each `ready-to-play` call of a trace, the number of frames stored before it. -/
def readyPoints : List RelayEvent → Nat → List Nat
  | [], _ => []
  | RelayEvent.readyToPlay :: tr, stored => stored :: readyPoints tr stored
  | RelayEvent.store _ :: tr, stored => readyPoints tr (stored + 1)
  | RelayEvent.write _ _ :: tr, stored => readyPoints tr stored

/-- Payloads of the datagrams sent from `addr`, in arrival order. -/
def payloadsFrom (addr : String) (ds : List Inbound) : List (List Byte) :=
  (ds.filter (fun d => decide (d.addr = addr))).map (fun d => d.payload)

/-! ## client/client.go: handshake handler -/

/-- Go `strings.Split(s, ":")` on the characters of `s`. -/
def splitColon : List Char → List (List Char)
  | [] => [[]]
  | c :: cs =>
    if c = ':' then [] :: splitColon cs
    else
      match splitColon cs with
      | [] => [[c]]
      | w :: ws => (c :: w) :: ws

/-- Go `strings.Split(s, ":")`. -/
def stringsSplit (s : String) : List String :=
  (splitColon s.data).map String.mk

/-- Session globals of a peer that `listenForPeers` reads or writes. -/
structure Peer where
  isSeeder : Bool
  isSourceSeeder : Bool
  alreadySeeding : Bool
  alreadyListeningForMp3 : Bool
  seedees : List String
  peerToConn : GoMap Bool
  currentSong : String
  maxSeedees : Int
deriving DecidableEq

/-- What the handshake handler does besides updating the globals. -/
inductive PeerEffect where
  | writeTo (msg : String) (ip : String) (port : Nat)
  | goSeedToPeers (song : String)
deriving DecidableEq

/-- Function `hasSongLocally`, over the result of `getSongNames`. -/
def hasSongLocally (songNames : List String) (songFile : String) : Bool :=
  match songNames with
  | [] => false
  | song :: rest => if song = songFile then true else hasSongLocally rest songFile

/-- First statement of the `request` case, `if currentSong == "" { currentSong =
substrs[1] }`, over the fields `args` after the tag: `substrs[1]` is indexed only when
no song is recorded, and panics when the packet has no second field. -/
def recordSong (p : Peer) (args : List String) : Option Peer :=
  if p.currentSong = "" then
    match args with
    | [] => none
    | song :: _ => some { p with currentSong := song }
  else some p

/-- Second statement of the `request` case, `if isSeeder || hasSongLocally(substrs[1])`:
the operator `||` evaluates `hasSongLocally(substrs[1])`, and so indexes `substrs[1]`,
only when `isSeeder` is false. -/
def answerRequest (songNames : List String) (p : Peer) (args : List String) (ip : String) :
    Option (Peer × List PeerEffect) :=
  if p.isSeeder then some (p, [PeerEffect.writeTo "reject" ip 6121])
  else
    match args with
    | [] => none
    | song :: _ =>
      if hasSongLocally songNames song then some (p, [PeerEffect.writeTo "reject" ip 6121])
      else some (p, [PeerEffect.writeTo "accept" ip 6121])

/-- Body of the loop of `listenForPeers` for one packet `s` received from host
`ip`; `songNames` is what `getSongNames` returns. -/
def handlePacket (songNames : List String) (p : Peer) (s : String) (ip : String) :
    Option (Peer × List PeerEffect) :=
  match stringsSplit s with
  | [] => none
  | tag :: args =>
    if tag = "request" then
      match recordSong p args with
      | none => none
      | some p1 => answerRequest songNames p1 args ip
    else if tag = "confirm" then
      if p.isSeeder then
        some (p, List.replicate 5 (PeerEffect.writeTo "reject" ip 6121))
      else
        some ({ p with isSeeder := true }, [PeerEffect.goSeedToPeers p.currentSong])
    else if tag = "accept" then
      if p.isSeeder && decide ((p.seedees.length : Int) < p.maxSeedees) then
        some ({ p with seedees := p.seedees ++ [ip], peerToConn := mapSet p.peerToConn ip true },
              List.replicate 5 (PeerEffect.writeTo "confirm" ip 6121))
      else if p.isSeeder && decide ((p.seedees.length : Int) ≥ p.maxSeedees) then
        some ({ p with peerToConn := mapSet p.peerToConn ip true }, [])
      else none
    else if tag = "reject" then
      some ({ p with peerToConn := mapSet p.peerToConn ip true }, [])
    else some (p, [])

/-- Handler `listenForPeers` over a sequence of packets `(s, ip)`. -/
def listenForPeers (songNames : List String) :
    Peer → List (String × String) → Option (Peer × List PeerEffect)
  | p, [] => some (p, [])
  | p, (s, ip) :: rest =>
    match handlePacket songNames p s ip with
    | none => none
    | some (p1, ev1) =>
      match listenForPeers songNames p1 rest with
      | none => none
      | some (p2, ev2) => some (p2, ev1 ++ ev2)

/-- State of the handshake globals after the initialisation in `main`. -/
def Peer.init : Peer :=
  { isSeeder := false, isSourceSeeder := false, alreadySeeding := false,
    alreadyListeningForMp3 := false, seedees := [], peerToConn := [], currentSong := "",
    maxSeedees := 1 }

/-! ## Reference functions used in the statements -/

/-- A list with every occurrence of an element after its first removed. -/
def firstOccurrences : List String → List String
  | [] => []
  | x :: xs => x :: (firstOccurrences xs).filter (fun y => decide (y ≠ x))

/-- A call of a member to the membership table. -/
inductive Membership where
  | join (ip : String) (list : List String)
  | leave (ip : String)
deriving DecidableEq

/-- The tracker after a sequence of `join` and `leave` calls. -/
def applyCalls (t : Tracker) : List Membership → Tracker
  | [] => t
  | Membership.join ip list :: cs => applyCalls (join t ip list) cs
  | Membership.leave ip :: cs => applyCalls (leave t ip) cs

/-- Whether the most recent call of `cs` that names `ip` is a `join`. -/
def lastIsJoin (ip : String) : List Membership → Bool → Bool
  | [], joined => joined
  | Membership.join ip' _ :: cs, joined => lastIsJoin ip cs (if ip' = ip then true else joined)
  | Membership.leave ip' :: cs, joined => lastIsJoin ip cs (if ip' = ip then false else joined)

/-- The tracker after `n` calls of `ready-to-play`. -/
def readyTimes : Nat → Tracker → Tracker
  | 0, t => t
  | n + 1, t => readyTimes n (readyToPlay t).1

/-- The tracker after `n` calls of `done-playing`. -/
def doneTimes : Nat → Tracker → Option Tracker
  | 0, t => some t
  | n + 1, t =>
    match donePlaying t with
    | none => none
    | some t1 => doneTimes n t1

/-- Number of bytes `listenForMp3` stores for the datagrams `ds` when it enters the loop
with upstream source `seeder` (`""` when none is locked in yet): the bytes read from the
datagrams it accepts. -/
def acceptedBytes (seeder : String) : List Inbound → Nat
  | [] => 0
  | d :: ds =>
    if d.addr = (if seeder = "" then d.addr else seeder) then
      min d.payload.length 2048 + acceptedBytes (if seeder = "" then d.addr else seeder) ds
    else acceptedBytes (if seeder = "" then d.addr else seeder) ds

/-! ## Sample states -/

/-- A tracker with two members, one song queued and one client playing. -/
def sampleTracker : Tracker :=
  { peerMap := [("10.0.0.1:4000", ["song1.mp3", "song2.mp3"]), ("10.0.0.2:4000", ["song2.mp3"])],
    songQueue := ["song1.mp3"], currSong := "", clientsPlaying := 1, doneResponses := 0 }

/-- A range order of the members of `sampleTracker`. -/
def sampleKeys : List String := ["10.0.0.2:4000", "10.0.0.1:4000"]

/-- A sequence of membership calls. -/
def sampleCalls : List Membership :=
  [Membership.join "10.0.0.1:4000" ["song1.mp3"], Membership.join "10.0.0.2:4000" [],
   Membership.leave "10.0.0.1:4000", Membership.join "10.0.0.2:4000" ["song2.mp3"]]

/-- A peer that is already a seeder with one reserved downstream relay. -/
def sampleSeeder : Peer :=
  { isSeeder := true, isSourceSeeder := false, alreadySeeding := false,
    alreadyListeningForMp3 := true, seedees := ["10.0.0.3"],
    peerToConn := [("10.0.0.3", true)], currentSong := "song1.mp3", maxSeedees := 1 }

/-- A listener at the start of a session, with a four-byte buffer. -/
def sampleListener : Listener :=
  { prebufferedFrames := 1, currIndex := 0, seeder := "", songBuf := [0, 0, 0, 0] }

/-- A one-byte datagram handled while one downstream relay is connected. -/
def sampleInbound : Inbound :=
  { addr := "10.0.0.9", payload := [7], relays := ["10.0.0.3"] }

/-- Two later datagrams: one from another host, one from the host of `sampleInbound`. -/
def sampleRest : List Inbound :=
  [{ addr := "10.0.0.7", payload := [9, 9], relays := [] },
   { addr := "10.0.0.9", payload := [8], relays := [] }]

/-- A decode session of 301 one-byte frames, one frame past the watermark. -/
def watermarkFrames : List Decoded :=
  List.replicate 301 { frame_bytes := [1], relays := [] }

/-- A listener session of 301 one-byte datagrams from one upstream host, with one
datagram from another host after the first. -/
def watermarkDatagrams : List Inbound :=
  { addr := "10.0.0.9", payload := [1], relays := [] } ::
    { addr := "10.0.0.7", payload := [9, 9], relays := [] } ::
    List.replicate 300 { addr := "10.0.0.9", payload := [1], relays := [] }

/-- A buffer of 400 bytes. -/
def watermarkBuf : List Byte := List.replicate 400 0

/-- An empty datagram from the upstream host. -/
def emptyDatagram : Inbound :=
  { addr := "10.0.0.9", payload := [], relays := [] }

/-- An empty datagram from another host. -/
def strayDatagram : Inbound :=
  { addr := "10.0.0.7", payload := [], relays := [] }

/-- A source seeder at the start of a session: no downstream relay reserved yet. -/
def sampleSource : Peer :=
  { isSeeder := true, isSourceSeeder := true, alreadySeeding := true,
    alreadyListeningForMp3 := false, seedees := [], peerToConn := [],
    currentSong := "song1.mp3", maxSeedees := 1 }

/-- Handshake packets `(s, ip)`: two candidates accept, a third one rejects, and a
fourth host sends a `request` without a song. -/
def samplePackets : List (String × String) :=
  [("accept", "10.0.0.2"), ("accept", "10.0.0.3"), ("reject", "10.0.0.4"),
   ("request", "10.0.0.5")]

/-! ## Lemmas on Go maps -/

theorem mapFind_filter_ne {V : Type} (m : GoMap V) (k ip : String) :
    mapFind (m.filter (fun e => decide (e.1 ≠ k))) ip = if k = ip then none else mapFind m ip := by
  induction m with
  | nil => simp [mapFind]
  | cons e m ih =>
    obtain ⟨k', v⟩ := e
    simp only [ne_eq, decide_not] at ih ⊢
    by_cases h1 : k' = k
    · subst h1
      by_cases h2 : k' = ip
      · simp [List.filter, mapFind, h2] at ih ⊢
        exact ih
      · simp [List.filter, mapFind, h2] at ih ⊢
        exact ih
    · by_cases h2 : k = ip
      · subst h2
        simp [List.filter, mapFind, h1] at ih ⊢
        exact ih
      · simp [List.filter, mapFind, h1, h2] at ih ⊢
        rw [ih]

theorem mapFind_mapSet {V : Type} (m : GoMap V) (k ip : String) (v : V) :
    mapFind (mapSet m k v) ip = if k = ip then some v else mapFind m ip := by
  unfold mapSet
  by_cases h : k = ip
  · simp [mapFind, h]
  · have := mapFind_filter_ne m k ip
    simp only [h, if_false] at this
    simp only [mapFind, h, if_false, this]

theorem mapFind_mapDelete {V : Type} (m : GoMap V) (k ip : String) :
    mapFind (mapDelete m k) ip = if k = ip then none else mapFind m ip :=
  mapFind_filter_ne m k ip

theorem mapFind_isSome_iff {V : Type} (m : GoMap V) (k : String) :
    (mapFind m k).isSome = true ↔ k ∈ m.map Prod.fst := by
  induction m with
  | nil => simp [mapFind]
  | cons e m ih =>
    obtain ⟨k', v⟩ := e
    by_cases h : k' = k
    · simp [mapFind, h]
    · have h' : ¬ k = k' := fun e => h e.symm
      simp [mapFind, h, h', ih]

theorem mem_range_iff {V : Type} (m : GoMap V) (keys : List String) (hk : IsRangeOrder m keys)
    (k : String) : k ∈ keys ↔ (mapFind m k).isSome = true := by
  rw [mapFind_isSome_iff, hk.mem_iff]
  simp [mapKeys]

theorem range_nodup {V : Type} (m : GoMap V) (keys : List String) (hk : IsRangeOrder m keys) :
    keys.Nodup :=
  hk.nodup_iff.mpr (List.nodup_dedup _)

/-! ## Lemmas on `getSongList` -/

theorem foldl_append_eq {α β : Type} (f : α → List β) (keys : List α) (acc : List β) :
    keys.foldl (fun songs k => songs ++ f k) acc = acc ++ (keys.map f).flatten := by
  induction keys generalizing acc with
  | nil => simp
  | cons k keys ih => simp [ih, List.append_assoc]

theorem collectSongs_eq (peerMap : GoMap (List String)) (keys : List String) :
    collectSongs peerMap keys = (keys.map (peerSongs peerMap)).flatten := by
  simp [collectSongs, foldl_append_eq]

theorem uniqueLoop_eq (songs encountered result : List String) :
    uniqueLoop songs encountered result =
      result ++ (firstOccurrences songs).filter (fun y => decide (y ∉ encountered)) := by
  induction songs generalizing encountered result with
  | nil => simp [uniqueLoop, firstOccurrences]
  | cons s songs ih =>
    by_cases h : s ∈ encountered
    · simp only [uniqueLoop, h, if_true, ih, firstOccurrences]
      congr 1
      rw [List.filter_cons]
      simp only [h, not_true_eq_false, decide_False, Bool.false_eq_true, if_false]
      rw [List.filter_filter]
      apply List.filter_congr
      intro y _
      by_cases hy : y ∈ encountered
      · simp [hy]
      · have : y ≠ s := fun e => hy (e ▸ h)
        simp [hy, this]
    · simp only [uniqueLoop, h, if_false, ih, firstOccurrences]
      rw [List.filter_cons]
      simp only [h, not_false_eq_true, decide_True, if_true]
      rw [List.filter_filter, List.append_assoc]
      congr 1
      rw [List.singleton_append]
      congr 1
      apply List.filter_congr
      intro y _
      by_cases hy : y = s
      · simp [hy]
      · simp [hy]

theorem getSongList_eq (peerMap : GoMap (List String)) (keys : List String) :
    getSongList peerMap keys = firstOccurrences ((keys.map (peerSongs peerMap)).flatten) := by
  simp [getSongList, uniqueLoop_eq, collectSongs_eq]

theorem mem_firstOccurrences (l : List String) (s : String) :
    s ∈ firstOccurrences l ↔ s ∈ l := by
  induction l with
  | nil => simp [firstOccurrences]
  | cons x l ih =>
    by_cases h : s = x
    · simp [firstOccurrences, h]
    · simp [firstOccurrences, h, ih]

theorem nodup_firstOccurrences (l : List String) : (firstOccurrences l).Nodup := by
  induction l with
  | nil => simp [firstOccurrences]
  | cons x l ih =>
    simp only [firstOccurrences, List.nodup_cons]
    refine ⟨?_, ih.filter _⟩
    simp [List.mem_filter]

theorem mem_getSongList (peerMap : GoMap (List String)) (keys : List String)
    (hk : IsRangeOrder peerMap keys) (s : String) :
    s ∈ getSongList peerMap keys ↔ ∃ ip list, mapFind peerMap ip = some list ∧ s ∈ list := by
  rw [getSongList_eq, mem_firstOccurrences]
  simp only [List.mem_flatten, List.mem_map]
  constructor
  · rintro ⟨l, ⟨k, _, rfl⟩, hs⟩
    unfold peerSongs at hs
    cases hf : mapFind peerMap k with
    | none => simp [hf] at hs
    | some list =>
      rw [hf] at hs
      exact ⟨k, list, hf, by simpa using hs⟩
  · rintro ⟨ip, list, hf, hs⟩
    refine ⟨list, ⟨ip, ?_, ?_⟩, hs⟩
    · rw [mem_range_iff peerMap keys hk, hf]
      rfl
    · simp [peerSongs, hf]

theorem playLoop_eq (arg : String) (songQueue l : List String) :
    playLoop arg songQueue l = if arg ∈ l then songQueue ++ [arg] else songQueue := by
  induction l with
  | nil => simp [playLoop]
  | cons x l ih =>
    by_cases h : arg = x
    · simp [playLoop, h]
    · simp [playLoop, h, ih]

/-! ## Lemmas on the membership calls -/

theorem foldl_snoc_eq (keys acc : List String) :
    keys.foldl (fun acc k => acc ++ [k]) acc = acc ++ keys := by
  induction keys generalizing acc with
  | nil => simp
  | cons k keys ih => simp [ih]

theorem listPeers_eq (t : Tracker) (keys : List String) : listPeers t keys = keys := by
  simp [listPeers, foldl_snoc_eq]

theorem applyCalls_append (t : Tracker) (cs cs' : List Membership) :
    applyCalls t (cs ++ cs') = applyCalls (applyCalls t cs) cs' := by
  induction cs generalizing t with
  | nil => rfl
  | cons c cs ih => cases c <;> simp [applyCalls, ih]

theorem isSome_applyCalls (cs : List Membership) (t : Tracker) (ip : String) :
    (mapFind (applyCalls t cs).peerMap ip).isSome = lastIsJoin ip cs (mapFind t.peerMap ip).isSome := by
  induction cs generalizing t with
  | nil => rfl
  | cons c cs ih =>
    cases c with
    | join ip' list =>
      simp only [applyCalls, lastIsJoin, ih, join, mapFind_mapSet]
      by_cases h : ip' = ip <;> simp [h]
    | leave ip' =>
      simp only [applyCalls, lastIsJoin, ih, leave, mapFind_mapDelete]
      by_cases h : ip' = ip <;> simp [h]

theorem filter_ne_idem {V : Type} (m : GoMap V) (k : String) :
    (m.filter (fun e => decide (e.1 ≠ k))).filter (fun e => decide (e.1 ≠ k)) =
      m.filter (fun e => decide (e.1 ≠ k)) := by
  rw [List.filter_filter]
  apply List.filter_congr
  intro e _
  simp

theorem join_join (t : Tracker) (ip : String) (list : List String) :
    join (join t ip list) ip list = join t ip list := by
  simp only [join, mapSet, List.filter_cons, ne_eq, not_true_eq_false, decide_False,
    Bool.false_eq_true, if_false]
  have := filter_ne_idem t.peerMap ip
  simp only [ne_eq] at this
  rw [this]

theorem leave_leave (t : Tracker) (ip : String) : leave (leave t ip) ip = leave t ip := by
  simp only [leave, mapDelete]
  rw [filter_ne_idem]

/-! ## Tracker: membership, song list and queue -/

/-- C1: `play(songId)` appends exactly one copy of `songId` to the end of the song
queue when `songId` occurs in the reply of `list-songs` and leaves the queue as it is
otherwise, whatever the range orders of the two calls; the membership table, the
current song and both counters are unchanged. -/
theorem play_appends_iff_listed (t : Tracker) (keys keys' : List String) (songId : String)
    (hk : IsRangeOrder t.peerMap keys) (hk' : IsRangeOrder t.peerMap keys') :
    (play t keys songId).songQueue =
        (if songId ∈ listSongs t keys' then t.songQueue ++ [songId] else t.songQueue) ∧
      (play t keys songId).peerMap = t.peerMap ∧
      (play t keys songId).currSong = t.currSong ∧
      (play t keys songId).clientsPlaying = t.clientsPlaying ∧
      (play t keys songId).doneResponses = t.doneResponses := by
  refine ⟨?_, rfl, rfl, rfl, rfl⟩
  have hmem : songId ∈ getSongList t.peerMap keys ↔ songId ∈ listSongs t keys' := by
    unfold listSongs
    rw [mem_getSongList _ _ hk, mem_getSongList _ _ hk']
  simp only [play, playLoop_eq]
  by_cases h : songId ∈ listSongs t keys'
  · simp [h, hmem.mpr h]
  · have h' : songId ∉ getSongList t.peerMap keys := fun e => h (hmem.mp e)
    simp [h, h']

theorem play_appends_iff_listed_witness :
    IsRangeOrder sampleTracker.peerMap sampleKeys ∧
      IsRangeOrder sampleTracker.peerMap sampleKeys.reverse ∧
      ((play sampleTracker sampleKeys "song2.mp3").songQueue =
          (if "song2.mp3" ∈ listSongs sampleTracker sampleKeys.reverse
            then sampleTracker.songQueue ++ ["song2.mp3"] else sampleTracker.songQueue) ∧
        (play sampleTracker sampleKeys "song2.mp3").peerMap = sampleTracker.peerMap ∧
        (play sampleTracker sampleKeys "song2.mp3").currSong = sampleTracker.currSong ∧
        (play sampleTracker sampleKeys "song2.mp3").clientsPlaying = sampleTracker.clientsPlaying ∧
        (play sampleTracker sampleKeys "song2.mp3").doneResponses = sampleTracker.doneResponses) :=
  ⟨by unfold IsRangeOrder; decide, by unfold IsRangeOrder; decide,
    play_appends_iff_listed sampleTracker sampleKeys sampleKeys.reverse "song2.mp3"
      (by unfold IsRangeOrder; decide) (by unfold IsRangeOrder; decide)⟩

/-- C5: the reply of `list-songs` is the concatenation of the members' song lists, in
the order the members are enumerated, with every occurrence of a song after its first
removed; every song advertised by a member occurs in it exactly once and nothing else
occurs in it. -/
theorem listSongs_dedup_union (t : Tracker) (keys : List String)
    (hk : IsRangeOrder t.peerMap keys) :
    listSongs t keys = firstOccurrences ((keys.map (peerSongs t.peerMap)).flatten) ∧
      (∀ s, (∃ ip list, mapFind t.peerMap ip = some list ∧ s ∈ list) →
        (listSongs t keys).count s = 1) ∧
      (∀ s, s ∈ listSongs t keys → ∃ ip list, mapFind t.peerMap ip = some list ∧ s ∈ list) := by
  refine ⟨getSongList_eq _ _, ?_, ?_⟩
  · intro s hs
    have hmem : s ∈ listSongs t keys := (mem_getSongList _ _ hk s).mpr hs
    have hnd : (listSongs t keys).Nodup := by
      unfold listSongs
      rw [getSongList_eq]
      exact nodup_firstOccurrences _
    exact List.count_eq_one_of_mem hnd hmem
  · intro s hs
    exact (mem_getSongList _ _ hk s).mp hs

theorem listSongs_dedup_union_witness :
    IsRangeOrder sampleTracker.peerMap sampleKeys ∧
      listSongs sampleTracker sampleKeys = ["song2.mp3", "song1.mp3"] ∧
      (listSongs sampleTracker sampleKeys =
          firstOccurrences ((sampleKeys.map (peerSongs sampleTracker.peerMap)).flatten) ∧
        (∀ s, (∃ ip list, mapFind sampleTracker.peerMap ip = some list ∧ s ∈ list) →
          (listSongs sampleTracker sampleKeys).count s = 1) ∧
        (∀ s, s ∈ listSongs sampleTracker sampleKeys →
          ∃ ip list, mapFind sampleTracker.peerMap ip = some list ∧ s ∈ list)) :=
  ⟨by unfold IsRangeOrder; decide, by decide,
    listSongs_dedup_union sampleTracker sampleKeys (by unfold IsRangeOrder; decide)⟩

/-- C6: after any sequence of `join` and `leave` calls on the initial tracker, the
reply of `list-peers` has no duplicates and holds exactly the identities whose most
recent call is a `join`; a call repeated right after itself leaves the tracker as the
single call does. -/
theorem listPeers_joined_set (cs : List Membership) (keys : List String)
    (hk : IsRangeOrder (applyCalls Tracker.init cs).peerMap keys) :
    (listPeers (applyCalls Tracker.init cs) keys).Nodup ∧
      (∀ ip, ip ∈ listPeers (applyCalls Tracker.init cs) keys ↔ lastIsJoin ip cs false = true) ∧
      (∀ c, applyCalls Tracker.init (cs ++ [c, c]) = applyCalls Tracker.init (cs ++ [c])) := by
  refine ⟨?_, ?_, ?_⟩
  · rw [listPeers_eq]
    exact range_nodup _ _ hk
  · intro ip
    rw [listPeers_eq, mem_range_iff _ _ hk, isSome_applyCalls]
    rfl
  · intro c
    rw [applyCalls_append, applyCalls_append]
    cases c with
    | join ip list => simp [applyCalls, join_join]
    | leave ip => simp [applyCalls, leave_leave]

theorem listPeers_joined_set_witness :
    IsRangeOrder (applyCalls Tracker.init sampleCalls).peerMap ["10.0.0.2:4000"] ∧
      listPeers (applyCalls Tracker.init sampleCalls) ["10.0.0.2:4000"] = ["10.0.0.2:4000"] ∧
      ((listPeers (applyCalls Tracker.init sampleCalls) ["10.0.0.2:4000"]).Nodup ∧
        (∀ ip, ip ∈ listPeers (applyCalls Tracker.init sampleCalls) ["10.0.0.2:4000"] ↔
          lastIsJoin ip sampleCalls false = true) ∧
        (∀ c, applyCalls Tracker.init (sampleCalls ++ [c, c]) =
          applyCalls Tracker.init (sampleCalls ++ [c]))) :=
  ⟨by unfold IsRangeOrder; decide, by decide,
    listPeers_joined_set sampleCalls ["10.0.0.2:4000"] (by unfold IsRangeOrder; decide)⟩

/-! ## Tracker: ping and the completion barrier -/

theorem wrapInt64_id (v : Int) (h1 : -(2 ^ 63) ≤ v) (h2 : v < 2 ^ 63) : wrapInt64 v = v := by
  unfold wrapInt64
  omega

theorem hasCurrSong_iff (currSong : String) (l : List String) :
    hasCurrSong currSong l = true ↔ currSong ∈ l := by
  induction l with
  | nil => simp [hasCurrSong]
  | cons x l ih =>
    by_cases h : x = currSong
    · simp [hasCurrSong, h]
    · have h' : ¬ currSong = x := fun e => h e.symm
      simp [hasCurrSong, h, h', ih]

theorem readyTimes_eq (n : Nat) (t : Tracker) (h0 : 0 ≤ t.clientsPlaying)
    (hb : t.clientsPlaying + n < 2 ^ 63) :
    readyTimes n t =
      { peerMap := t.peerMap, songQueue := t.songQueue, currSong := t.currSong,
        clientsPlaying := t.clientsPlaying + n, doneResponses := t.doneResponses } := by
  induction n generalizing t with
  | zero => simp [readyTimes]
  | succ n ih =>
    have hw : wrapInt64 (t.clientsPlaying + 1) = t.clientsPlaying + 1 :=
      wrapInt64_id _ (by omega) (by omega)
    simp only [readyTimes, readyToPlay, addInt64, hw]
    rw [ih]
    · simp only [Tracker.mk.injEq, true_and, and_true]
      push_cast
      omega
    · simp only
      omega
    · simp only
      push_cast at hb
      omega

theorem doneTimes_early (k : Nat) (s : Tracker) (hc : (k : Int) < s.clientsPlaying)
    (hcb : s.clientsPlaying < 2 ^ 63) (hd : 0 ≤ s.doneResponses)
    (hdb : s.doneResponses + k < 2 ^ 63) :
    doneTimes k s =
      some { peerMap := s.peerMap, songQueue := s.songQueue, currSong := s.currSong,
             clientsPlaying := s.clientsPlaying - k, doneResponses := s.doneResponses + k } := by
  induction k generalizing s with
  | zero => simp [doneTimes]
  | succ k ih =>
    push_cast at hc hdb
    have hw1 : wrapInt64 (s.clientsPlaying + -1) = s.clientsPlaying - 1 := by
      rw [wrapInt64_id _ (by omega) (by omega)]
      omega
    have hw2 : wrapInt64 (s.doneResponses + 1) = s.doneResponses + 1 :=
      wrapInt64_id _ (by omega) (by omega)
    have hne : ¬ s.clientsPlaying - 1 = 0 := by omega
    simp only [doneTimes, donePlaying, addInt64, hw1, hw2, hne, if_false]
    rw [ih]
    · simp only [Option.some.injEq, Tracker.mk.injEq, true_and]
      push_cast
      constructor <;> omega
    · simp only
      omega
    · simp only
      omega
    · simp only
      omega
    · simp only
      omega

theorem donePlaying_last (s : Tracker) (head : String) (rest : List String)
    (hq : s.songQueue = head :: rest) (hc : s.clientsPlaying = 1) :
    donePlaying s =
      some { peerMap := s.peerMap, songQueue := rest, currSong := "", clientsPlaying := 0,
             doneResponses := 0 } := by
  have hw : wrapInt64 (1 + -1) = 0 := by decide
  simp only [donePlaying, addInt64, hc, hq, hw, if_true]

theorem doneTimes_succ_of (k : Nat) (s s1 : Tracker) (h : doneTimes k s = some s1) :
    doneTimes (k + 1) s = donePlaying s1 := by
  induction k generalizing s with
  | zero =>
    simp only [doneTimes, Option.some.injEq] at h
    subst h
    simp only [doneTimes]
    cases donePlaying s <;> rfl
  | succ k ih =>
    simp only [doneTimes] at h ⊢
    cases hd : donePlaying s with
    | none => simp [hd] at h
    | some s2 =>
      simp only [hd] at h ⊢
      have := ih s2 h
      simp only [doneTimes] at this
      exact this

/-- Completion barrier on a non-empty queue: from a playing counter of 0 and a
completion counter that is not negative, after `n ≥ 1` calls of `ready-to-play` each of
the first `n - 1` calls of `done-playing` leaves `currSong` and the queue as they are
and the completion counter positive, and the `n`-th call clears `currSong`, zeroes both
counters and removes the head of the queue. -/
theorem completion_barrier (t : Tracker) (n : Nat) (head : String) (rest : List String)
    (hq : t.songQueue = head :: rest) (h0 : t.clientsPlaying = 0) (hd : 0 ≤ t.doneResponses)
    (hn : 1 ≤ n) (hb : t.doneResponses + n < 2 ^ 63) :
    (∀ k, 1 ≤ k → k < n → ∃ t1, doneTimes k (readyTimes n t) = some t1 ∧
        t1.currSong = t.currSong ∧ t1.songQueue = t.songQueue ∧ t1.doneResponses ≠ 0 ∧
        t1.clientsPlaying ≠ 0) ∧
      doneTimes n (readyTimes n t) =
        some { peerMap := t.peerMap, songQueue := rest, currSong := "", clientsPlaying := 0,
               doneResponses := 0 } := by
  have hr := readyTimes_eq n t (by omega) (by omega)
  have early : ∀ k, k < n → doneTimes k (readyTimes n t) =
      some { peerMap := t.peerMap, songQueue := t.songQueue, currSong := t.currSong,
             clientsPlaying := (n : Int) - k, doneResponses := t.doneResponses + k } := by
    intro k hk
    rw [hr, doneTimes_early]
    · simp [h0]
    · simp only [h0]
      omega
    · simp only [h0]
      omega
    · exact hd
    · simp only
      omega
  constructor
  · intro k hk1 hk
    refine ⟨_, early k hk, rfl, rfl, ?_, ?_⟩
    · simp only
      omega
    · simp only
      omega
  · obtain ⟨m, rfl⟩ : ∃ m, n = m + 1 := ⟨n - 1, by omega⟩
    rw [doneTimes_succ_of m _ _ (early m (by omega))]
    exact donePlaying_last _ head rest hq (by simp only; push_cast; omega)

/-- C2: on the state the tracker starts in (empty queue, both counters 0), after two
calls of `ready-to-play` the first call of `done-playing` leaves the playing counter at
1 and the completion counter at 1, and the second call, which brings the playing counter
to zero, panics in `songQueue[1:]` before it resets `currSong` and the completion
counter. -/
theorem barrier_panics_on_empty_queue :
    doneTimes 1 (readyTimes 2 Tracker.init) =
        some { peerMap := [], songQueue := [], currSong := "", clientsPlaying := 1,
               doneResponses := 1 } ∧
      doneTimes 2 (readyTimes 2 Tracker.init) = none := by
  constructor <;> decide

/-- C3: the state reached from the initial one by a single call of `ready-to-play` has
playing counter 1 and an empty queue, and `done-playing` does not succeed on it: the
slice expression `songQueue[1:]` panics. -/
theorem donePlaying_panics_on_empty_queue :
    (readyToPlay Tracker.init).1.clientsPlaying = 1 ∧
      (readyToPlay Tracker.init).1.songQueue = [] ∧
      donePlaying (readyToPlay Tracker.init).1 = none := by
  refine ⟨?_, ?_, ?_⟩ <;> decide

/-- C4: `ping` changes nothing and calls nobody when the completion counter is not
zero; otherwise it sets an empty `currSong` to the head of a non-empty queue, leaves
the queue, the membership table and the counters as they are, and then makes exactly one
call when `currSong` is not empty, `seed(currSong)` if the caller's songs in the
membership table contain `currSong` and `listen-for-mp3` if not, and no call when
`currSong` is still empty. -/
theorem ping_directive (t : Tracker) (ip : String) :
    (t.doneResponses ≠ 0 → ping t ip = (t, [])) ∧
      (t.doneResponses = 0 →
        (ping t ip).1 =
            { peerMap := t.peerMap, songQueue := t.songQueue,
              currSong := if t.currSong = "" then t.songQueue.head?.getD "" else t.currSong,
              clientsPlaying := t.clientsPlaying, doneResponses := t.doneResponses } ∧
          (ping t ip).2 =
            if (ping t ip).1.currSong = "" then []
            else if (ping t ip).1.currSong ∈ peerSongs t.peerMap ip then
              [Directive.seed (ping t ip).1.currSong]
            else [Directive.listenForMp3]) := by
  constructor
  · intro h
    simp [ping, h]
  · intro h
    obtain ⟨pm, q, cur, cp, dr⟩ := t
    simp only at h
    subst h
    cases q with
    | nil =>
      by_cases hc : cur = ""
      · simp [ping, hc]
      · by_cases hm : cur ∈ peerSongs pm ip
        · simp [ping, hc, hm, hasCurrSong_iff]
        · simp [ping, hc, hm, hasCurrSong_iff]
    | cons head q =>
      by_cases hc : cur = ""
      · by_cases hh : head = ""
        · simp [ping, hc, hh]
        · by_cases hm : head ∈ peerSongs pm ip
          · simp [ping, hc, hh, hm, hasCurrSong_iff]
          · simp [ping, hc, hh, hm, hasCurrSong_iff]
      · by_cases hm : cur ∈ peerSongs pm ip
        · simp [ping, hc, hm, hasCurrSong_iff]
        · simp [ping, hc, hm, hasCurrSong_iff]

theorem ping_directive_witness :
    sampleTracker.doneResponses = 0 ∧
      ping sampleTracker "10.0.0.1:4000" =
        ({ peerMap := sampleTracker.peerMap, songQueue := ["song1.mp3"], currSong := "song1.mp3",
           clientsPlaying := 1, doneResponses := 0 }, [Directive.seed "song1.mp3"]) ∧
      ping sampleTracker "10.0.0.2:4000" =
        ({ peerMap := sampleTracker.peerMap, songQueue := ["song1.mp3"], currSong := "song1.mp3",
           clientsPlaying := 1, doneResponses := 0 }, [Directive.listenForMp3]) ∧
      ((ping sampleTracker "10.0.0.1:4000").1 =
          { peerMap := sampleTracker.peerMap, songQueue := sampleTracker.songQueue,
            currSong := if sampleTracker.currSong = "" then sampleTracker.songQueue.head?.getD ""
              else sampleTracker.currSong,
            clientsPlaying := sampleTracker.clientsPlaying,
            doneResponses := sampleTracker.doneResponses } ∧
        (ping sampleTracker "10.0.0.1:4000").2 =
          if (ping sampleTracker "10.0.0.1:4000").1.currSong = "" then []
          else if (ping sampleTracker "10.0.0.1:4000").1.currSong ∈
              peerSongs sampleTracker.peerMap "10.0.0.1:4000" then
            [Directive.seed (ping sampleTracker "10.0.0.1:4000").1.currSong]
          else [Directive.listenForMp3]) :=
  ⟨by decide, by decide, by decide,
    (ping_directive sampleTracker "10.0.0.1:4000").2 (by decide)⟩

/-! ## Frame loops: the copy loop and one iteration -/

theorem take_succ_set (l : List Byte) (k : Nat) (b : Byte) (h : k < l.length) :
    List.take (k + 1) (l.set k b) = List.take k l ++ [b] := by
  induction l generalizing k with
  | nil => simp at h
  | cons x l ih =>
    cases k with
    | zero => simp
    | succ k =>
      simp only [List.length_cons, Nat.add_lt_add_iff_right] at h
      simp [ih k h]

theorem copyFrom_eq (buf : List Byte) (currIndex : Nat) (todo : Nat) :
    ∀ (i : Nat) (songBuf : List Byte), currIndex + i + todo ≤ songBuf.length →
      i + todo ≤ buf.length →
      copyFrom buf currIndex i todo songBuf =
        some (songBuf.take (currIndex + i) ++ (buf.drop i).take todo ++
          songBuf.drop (currIndex + i + todo)) := by
  induction todo with
  | zero =>
    intro i songBuf _ _
    simp [copyFrom]
  | succ todo ih =>
    intro i songBuf h1 h2
    have hi : i < buf.length := by omega
    have hc : currIndex + i < songBuf.length := by omega
    rw [copyFrom, if_pos hc, List.getElem?_eq_getElem hi]
    simp only
    rw [ih (i + 1) _ (by rw [List.length_set]; omega) (by omega)]
    congr 1
    have e1 : List.take (currIndex + (i + 1)) (songBuf.set (currIndex + i) buf[i]) =
        List.take (currIndex + i) songBuf ++ [buf[i]] := by
      rw [← Nat.add_assoc]
      exact take_succ_set songBuf (currIndex + i) buf[i] hc
    have e2 : List.drop (currIndex + (i + 1) + todo) (songBuf.set (currIndex + i) buf[i]) =
        List.drop (currIndex + i + (todo + 1)) songBuf := by
      rw [List.drop_set_of_lt _ _ (by omega)]
      congr 1
      omega
    have e3 : List.take (todo + 1) (List.drop i buf) =
        buf[i] :: List.take todo (List.drop (i + 1) buf) := by
      rw [List.drop_eq_getElem_cons hi, List.take_succ_cons]
    rw [e1, e2, e3]
    simp

theorem copyFrame_eq (songBuf buf : List Byte) (currIndex n : Nat)
    (h1 : currIndex + n ≤ songBuf.length) (h2 : n ≤ buf.length) :
    copyFrame songBuf currIndex buf n =
      some (songBuf.take currIndex ++ buf.take n ++ songBuf.drop (currIndex + n)) := by
  unfold copyFrame
  rw [copyFrom_eq buf currIndex n 0 songBuf (by omega) (by omega)]
  simp

theorem readFrom_fst (payload : List Byte) : (readFrom payload).1 = min payload.length 2048 := rfl

theorem readFrom_length (payload : List Byte) : (readFrom payload).2.length = 2048 := by
  simp only [readFrom, List.length_append, List.length_take, List.length_replicate]
  omega

theorem readFrom_take (payload : List Byte) :
    (readFrom payload).2.take (readFrom payload).1 = payload.take 2048 := by
  simp only [readFrom]
  rw [List.take_append_of_le_length (by simp)]
  rw [List.take_take]
  by_cases h : payload.length ≤ 2048
  · rw [List.take_of_length_le (by omega), List.take_of_length_le h]
  · congr 1
    omega


theorem listenIter_accept (st : Listener) (d : Inbound)
    (hs : st.seeder = "" ∨ st.seeder = d.addr)
    (hcap : st.currIndex + min d.payload.length 2048 ≤ st.songBuf.length) :
    listenIter st d =
      some ({ prebufferedFrames := st.prebufferedFrames + 1,
              currIndex := st.currIndex + min d.payload.length 2048,
              seeder := d.addr,
              songBuf := st.songBuf.take st.currIndex ++ d.payload.take 2048 ++
                st.songBuf.drop (st.currIndex + min d.payload.length 2048) },
            readyCheck st.prebufferedFrames ++ relayWrites d.relays (readFrom d.payload).2 ++
              [RelayEvent.store (d.payload.take 2048)]) := by
  have hseed : (if st.seeder = "" then d.addr else st.seeder) = d.addr := by
    rcases hs with h | h
    · simp [h]
    · by_cases h' : st.seeder = ""
      · simp [h']
      · simp [h', h]
  unfold listenIter
  simp only [hseed, ne_eq, not_true_eq_false, if_false]
  rw [readFrom_take, readFrom_fst,
    copyFrame_eq _ _ _ _ hcap (by rw [readFrom_length]; omega)]
  have ht : List.take (min d.payload.length 2048) (readFrom d.payload).2 = d.payload.take 2048 := by
    rw [← readFrom_fst, readFrom_take]
  simp only [ht]

theorem listenIter_discard (st : Listener) (d : Inbound) (h1 : st.seeder ≠ "")
    (h2 : d.addr ≠ st.seeder) :
    listenIter st d = some (st, readyCheck st.prebufferedFrames) := by
  unfold listenIter
  simp [h1, h2]

/-! ## Handshake handler and relay writes -/

/-- C10: a peer that is already a seeder handles a packet whose tag is `confirm` by
sending exactly five `reject` packets to port 6121 of the sender and nothing else: the
downstream set, the responded map, the recorded song, the seeder flags and the fan-out
limit are unchanged and no seeding task is started. -/
theorem confirm_when_seeder_rejects (songNames : List String) (p : Peer) (s ip : String)
    (hseed : p.isSeeder = true) (htag : (stringsSplit s).head? = some "confirm") :
    handlePacket songNames p s ip =
      some (p, [PeerEffect.writeTo "reject" ip 6121, PeerEffect.writeTo "reject" ip 6121,
                PeerEffect.writeTo "reject" ip 6121, PeerEffect.writeTo "reject" ip 6121,
                PeerEffect.writeTo "reject" ip 6121]) := by
  unfold handlePacket
  cases hsp : stringsSplit s with
  | nil => simp [hsp] at htag
  | cons tag args =>
    rw [hsp] at htag
    simp only [List.head?_cons, Option.some.injEq] at htag
    subst htag
    have h1 : ¬ ("confirm" : String) = "request" := by decide
    simp only [h1, if_false, if_true, hseed]
    rfl

theorem confirm_when_seeder_rejects_witness :
    sampleSeeder.isSeeder = true ∧ (stringsSplit "confirm").head? = some "confirm" ∧
      handlePacket ["song1.mp3"] sampleSeeder "confirm" "10.0.0.2" =
        some (sampleSeeder,
          [PeerEffect.writeTo "reject" "10.0.0.2" 6121, PeerEffect.writeTo "reject" "10.0.0.2" 6121,
           PeerEffect.writeTo "reject" "10.0.0.2" 6121, PeerEffect.writeTo "reject" "10.0.0.2" 6121,
           PeerEffect.writeTo "reject" "10.0.0.2" 6121]) :=
  ⟨by decide, by decide,
    confirm_when_seeder_rejects ["song1.mp3"] sampleSeeder "confirm" "10.0.0.2" (by decide)
      (by decide)⟩

/-- Every accepted datagram is forwarded as the whole 2048-byte receive buffer. -/
theorem relay_write_length (payload : List Byte) (relays : List String) (ev : RelayEvent)
    (h : ev ∈ relayWrites relays (readFrom payload).2) :
    ∃ c bytes, ev = RelayEvent.write c bytes ∧ bytes.length = 2048 := by
  simp only [relayWrites, List.mem_map] at h
  obtain ⟨c, _, rfl⟩ := h
  exact ⟨c, _, rfl, readFrom_length payload⟩

/-- C8: a listener with one downstream relay that accepts a datagram of one byte `7`
stores that one byte in its buffer and advances its cursor by 1, but writes the whole
2048-byte receive buffer to the relay: the byte followed by 2047 zero bytes, which the
downstream peer reads as a frame of 2048 bytes. -/
theorem relay_write_pads_frame :
    listenIter sampleListener sampleInbound =
        some ({ prebufferedFrames := 2, currIndex := 1, seeder := "10.0.0.9",
                songBuf := [7, 0, 0, 0] },
          [RelayEvent.write "10.0.0.3" (readFrom [7]).2, RelayEvent.store [7]]) ∧
      (readFrom [7]).2 = 7 :: List.replicate 2047 0 ∧
      (readFrom [7]).2 ≠ [7] ∧
      (readFrom (readFrom [7]).2).1 = 2048 := by
  refine ⟨?_, rfl, ?_, ?_⟩
  · rw [listenIter_accept _ _ (Or.inl rfl) (by decide)]
    rfl
  · intro h
    have hl := congrArg List.length h
    rw [readFrom_length] at hl
    simp at hl
  · rw [readFrom_fst, readFrom_length]
    rfl


theorem payloadsFrom_cons_eq (a : String) (d : Inbound) (ds : List Inbound) (h : d.addr = a) :
    payloadsFrom a (d :: ds) = d.payload :: payloadsFrom a ds := by
  simp [payloadsFrom, List.filter_cons, h]

theorem payloadsFrom_cons_ne (a : String) (d : Inbound) (ds : List Inbound) (h : d.addr ≠ a) :
    payloadsFrom a (d :: ds) = payloadsFrom a ds := by
  simp [payloadsFrom, List.filter_cons, h]

theorem buf_glue (sb P R : List Byte) (ci : Nat) (h : ci + P.length + R.length ≤ sb.length) :
    List.take (ci + P.length) (List.take ci sb ++ P ++ List.drop (ci + P.length) sb) ++ R ++
        List.drop (ci + P.length + R.length)
          (List.take ci sb ++ P ++ List.drop (ci + P.length) sb) =
      List.take ci sb ++ (P ++ R) ++ List.drop (ci + (P ++ R).length) sb := by
  have hl : (List.take ci sb ++ P).length = ci + P.length := by
    simp only [List.length_append, List.length_take]
    omega
  rw [List.take_left' hl]
  have hd : List.drop (ci + P.length + R.length)
      (List.take ci sb ++ P ++ List.drop (ci + P.length) sb) =
      List.drop (ci + (P ++ R).length) sb := by
    rw [List.drop_append_eq_append_drop, hl]
    rw [List.drop_of_length_le (by omega)]
    simp only [List.nil_append, List.drop_drop, List.length_append]
    congr 1
    omega
  rw [hd]
  simp [List.append_assoc]

theorem listenLoop_locked (a : String) (ha : a ≠ "") (ds : List Inbound) :
    ∀ (st : Listener) (e : LoopEnd),
      (st.seeder = a ∨ (st.seeder = "" ∧ ∃ d rest, ds = d :: rest ∧ d.addr = a)) →
      (∀ d ∈ ds, d.addr = a → d.payload.length ≤ 2048) →
      st.currIndex + ((payloadsFrom a ds).flatten).length ≤ st.songBuf.length →
      ∃ tr, listenLoop st ds e =
        some ({ prebufferedFrames := st.prebufferedFrames + (payloadsFrom a ds).length,
                currIndex := st.currIndex + ((payloadsFrom a ds).flatten).length,
                seeder := a,
                songBuf := st.songBuf.take st.currIndex ++ (payloadsFrom a ds).flatten ++
                  st.songBuf.drop (st.currIndex + ((payloadsFrom a ds).flatten).length) },
              tr) := by
  induction ds with
  | nil =>
    intro st e hs _ _
    have hsa : st.seeder = a := by
      rcases hs with h | ⟨_, d, rest, h, _⟩
      · exact h
      · simp at h
    obtain ⟨pf, ci, sd, sb⟩ := st
    simp only at hsa
    subst hsa
    cases e <;> simp [listenLoop, payloadsFrom]
  | cons d ds ih =>
    intro st e hs hlen hcap
    by_cases hd : d.addr = a
    · have hs' : st.seeder = "" ∨ st.seeder = d.addr := by
        rcases hs with h | ⟨h, _⟩
        · exact Or.inr (h.trans hd.symm)
        · exact Or.inl h
      have hpl : d.payload.length ≤ 2048 := hlen d (List.mem_cons_self _ _) hd
      have hmin : min d.payload.length 2048 = d.payload.length := by omega
      rw [payloadsFrom_cons_eq a d ds hd] at hcap ⊢
      simp only [List.flatten_cons, List.length_append, List.length_cons] at hcap ⊢
      have hacc := listenIter_accept st d hs' (by rw [hmin]; omega)
      rw [hmin, List.take_of_length_le hpl] at hacc
      have hlen1 : (List.take st.currIndex st.songBuf ++ d.payload ++
          List.drop (st.currIndex + d.payload.length) st.songBuf).length = st.songBuf.length := by
        simp only [List.length_append, List.length_take, List.length_drop]
        omega
      obtain ⟨tr, htr⟩ := ih
        { prebufferedFrames := st.prebufferedFrames + 1,
          currIndex := st.currIndex + d.payload.length,
          seeder := d.addr,
          songBuf := List.take st.currIndex st.songBuf ++ d.payload ++
            List.drop (st.currIndex + d.payload.length) st.songBuf }
        e (Or.inl hd) (fun x hx => hlen x (List.mem_cons_of_mem _ hx))
        (by simp only [hlen1]; omega)
      refine ⟨(readyCheck st.prebufferedFrames ++ relayWrites d.relays (readFrom d.payload).2 ++
        [RelayEvent.store d.payload]) ++ tr, ?_⟩
      simp only [listenLoop, hacc, htr]
      simp only [Option.some.injEq, Prod.mk.injEq, Listener.mk.injEq, and_true, true_and]
      refine ⟨by omega, by omega, ?_⟩
      have := buf_glue st.songBuf d.payload ((payloadsFrom a ds).flatten) st.currIndex (by omega)
      simp only [List.length_append] at this
      rw [this]
    · have hsa : st.seeder = a := by
        rcases hs with h | ⟨_, d', rest, h, h'⟩
        · exact h
        · simp only [List.cons.injEq] at h
          exact absurd (h.1 ▸ h') hd
      have hdis := listenIter_discard st d (hsa ▸ ha) (hsa ▸ hd)
      rw [payloadsFrom_cons_ne a d ds hd] at hcap ⊢
      obtain ⟨tr, htr⟩ := ih st e (Or.inl hsa) (fun x hx => hlen x (List.mem_cons_of_mem _ hx)) hcap
      exact ⟨readyCheck st.prebufferedFrames ++ tr, by simp only [listenLoop, hdis, htr]⟩


theorem payloadsFrom_filter (a : String) (ds : List Inbound) :
    payloadsFrom a (ds.filter (fun d => decide (d.addr = a))) = payloadsFrom a ds := by
  simp [payloadsFrom, List.filter_filter]

/-- C9: for a non-empty sequence of inbound datagrams whose first sender has a
non-empty host `a`, whose datagrams from `a` fit the 2048-byte receive buffer and
together fit `songBuf`, `listenForMp3` returns with the first `currIndex` bytes of the
buffer equal to the concatenation, in arrival order, of the payloads sent from `a`, the
cursor equal to their total length and the rest of the buffer as it was; a datagram from
another address leaves the whole state as it is, and the run ends in the state of the run
on the datagrams from `a` alone. -/
theorem listen_buffer_is_seeder_frames (songBuf : List Byte) (d0 : Inbound)
    (rest : List Inbound) (e : LoopEnd) (haddr : d0.addr ≠ "")
    (hlen : ∀ d ∈ d0 :: rest, d.addr = d0.addr → d.payload.length ≤ 2048)
    (hcap : ((payloadsFrom d0.addr (d0 :: rest)).flatten).length ≤ songBuf.length) :
    ∃ st tr, listenForMp3 songBuf (d0 :: rest) e = some (st, tr) ∧
      st.songBuf.take st.currIndex = (payloadsFrom d0.addr (d0 :: rest)).flatten ∧
      st.currIndex = ((payloadsFrom d0.addr (d0 :: rest)).flatten).length ∧
      st.prebufferedFrames = 1 + (payloadsFrom d0.addr (d0 :: rest)).length ∧
      st.seeder = d0.addr ∧
      st.songBuf.drop st.currIndex = songBuf.drop st.currIndex ∧
      (∀ (s : Listener) (d : Inbound), s.seeder = d0.addr → d.addr ≠ d0.addr →
        ∃ ev, listenIter s d = some (s, ev)) ∧
      (∃ tr1, listenForMp3 songBuf
        ((d0 :: rest).filter (fun d => decide (d.addr = d0.addr))) e = some (st, tr1)) := by
  obtain ⟨tr, htr⟩ := listenLoop_locked d0.addr haddr (d0 :: rest)
    { prebufferedFrames := 1, currIndex := 0, seeder := "", songBuf := songBuf } e
    (Or.inr ⟨rfl, d0, rest, rfl, rfl⟩) hlen (by simpa using hcap)
  have hfil : (d0 :: rest).filter (fun d => decide (d.addr = d0.addr)) =
      d0 :: rest.filter (fun d => decide (d.addr = d0.addr)) := by
    simp [List.filter_cons]
  obtain ⟨tr1, htr1⟩ := listenLoop_locked d0.addr haddr
    ((d0 :: rest).filter (fun d => decide (d.addr = d0.addr)))
    { prebufferedFrames := 1, currIndex := 0, seeder := "", songBuf := songBuf } e
    (Or.inr ⟨rfl, d0, _, hfil, rfl⟩)
    (fun d hd => hlen d (List.mem_of_mem_filter hd))
    (by rw [payloadsFrom_filter]; simpa using hcap)
  rw [payloadsFrom_filter] at htr1
  simp only [Nat.zero_add, List.take_zero, List.nil_append] at htr htr1
  refine ⟨_, tr, htr, ?_, rfl, rfl, rfl, ?_, ?_, ⟨tr1, htr1⟩⟩
  · simp
  · simp only
    rw [List.drop_left' rfl]
  · intro s d hs hd
    exact ⟨_, listenIter_discard s d (hs ▸ haddr) (hs ▸ hd)⟩

theorem listen_buffer_is_seeder_frames_witness :
    sampleInbound.addr ≠ "" ∧
      (∀ d ∈ sampleInbound :: sampleRest, d.addr = sampleInbound.addr → d.payload.length ≤ 2048) ∧
      ((payloadsFrom sampleInbound.addr (sampleInbound :: sampleRest)).flatten).length ≤
        sampleListener.songBuf.length ∧
      (payloadsFrom sampleInbound.addr (sampleInbound :: sampleRest)).flatten = [7, 8] ∧
      (∃ st tr, listenForMp3 sampleListener.songBuf (sampleInbound :: sampleRest)
          LoopEnd.readFailed = some (st, tr) ∧
        st.songBuf.take st.currIndex =
          (payloadsFrom sampleInbound.addr (sampleInbound :: sampleRest)).flatten ∧
        st.currIndex =
          ((payloadsFrom sampleInbound.addr (sampleInbound :: sampleRest)).flatten).length ∧
        st.prebufferedFrames =
          1 + (payloadsFrom sampleInbound.addr (sampleInbound :: sampleRest)).length ∧
        st.seeder = sampleInbound.addr ∧
        st.songBuf.drop st.currIndex = sampleListener.songBuf.drop st.currIndex ∧
        (∀ (s : Listener) (d : Inbound), s.seeder = sampleInbound.addr →
          d.addr ≠ sampleInbound.addr → ∃ ev, listenIter s d = some (s, ev)) ∧
        (∃ tr1, listenForMp3 sampleListener.songBuf
          ((sampleInbound :: sampleRest).filter (fun d => decide (d.addr = sampleInbound.addr)))
          LoopEnd.readFailed = some (st, tr1))) :=
  ⟨by decide, by decide, by decide, by decide,
    listen_buffer_is_seeder_frames sampleListener.songBuf sampleInbound sampleRest
      LoopEnd.readFailed (by decide) (by decide) (by decide)⟩


/-! ## Frame loops: the ready-to-play signal -/

theorem storeCount_append (a b : List RelayEvent) :
    storeCount (a ++ b) = storeCount a + storeCount b := by
  induction a with
  | nil => simp [storeCount]
  | cons x a ih =>
    cases x with
    | readyToPlay => simpa [storeCount] using ih
    | write c bs => simpa [storeCount] using ih
    | store f =>
      rw [List.cons_append]
      simp only [storeCount]
      rw [ih]
      omega

theorem readyPoints_append (a b : List RelayEvent) (k : Nat) :
    readyPoints (a ++ b) k = readyPoints a k ++ readyPoints b (k + storeCount a) := by
  induction a generalizing k with
  | nil => simp [readyPoints, storeCount]
  | cons x a ih =>
    cases x with
    | readyToPlay => simp [readyPoints, storeCount, ih]
    | write c bs => simp [readyPoints, storeCount, ih]
    | store f =>
      rw [List.cons_append]
      simp only [readyPoints, storeCount]
      rw [ih]
      congr 2
      omega

theorem readyPoints_readyCheck (c k : Nat) :
    readyPoints (readyCheck c) k = if c = 300 then [k] else [] := by
  unfold readyCheck
  by_cases h : c = 300 <;> simp [h, readyPoints]

theorem storeCount_readyCheck (c : Nat) : storeCount (readyCheck c) = 0 := by
  unfold readyCheck
  by_cases h : c = 300 <;> simp [h, storeCount]

theorem readyPoints_relayWrites (relays : List String) (bytes : List Byte) (k : Nat) :
    readyPoints (relayWrites relays bytes) k = [] := by
  induction relays with
  | nil => simp [relayWrites, readyPoints]
  | cons c relays ih =>
    simp only [relayWrites, List.map_cons, readyPoints] at ih ⊢
    exact ih

theorem storeCount_relayWrites (relays : List String) (bytes : List Byte) :
    storeCount (relayWrites relays bytes) = 0 := by
  induction relays with
  | nil => simp [relayWrites, storeCount]
  | cons c relays ih =>
    simp only [relayWrites, List.map_cons, storeCount] at ih ⊢
    exact ih

theorem readyCount_eq_length (tr : List RelayEvent) (k : Nat) :
    readyCount tr = (readyPoints tr k).length := by
  induction tr generalizing k with
  | nil => simp [readyCount, readyPoints]
  | cons x tr ih =>
    cases x with
    | readyToPlay =>
      simp only [readyCount, List.count_cons_self, readyPoints, List.length_cons] at ih ⊢
      rw [ih k]
    | write c bs =>
      simp only [readyCount, readyPoints] at ih ⊢
      rw [List.count_cons_of_ne (by simp)]
      exact ih k
    | store f =>
      simp only [readyCount, readyPoints] at ih ⊢
      rw [List.count_cons_of_ne (by simp)]
      exact ih (k + 1)

theorem iter_points (c k : Nat) (relays : List String) (bytes frame : List Byte)
    (tr : List RelayEvent) :
    readyPoints (readyCheck c ++ relayWrites relays bytes ++ [RelayEvent.store frame] ++ tr) k =
      (if c = 300 then [k] else []) ++ readyPoints tr (k + 1) := by
  simp [readyPoints_append, storeCount_append, readyPoints_readyCheck, storeCount_readyCheck,
    readyPoints_relayWrites, storeCount_relayWrites, readyPoints, storeCount]

theorem seedIter_eq (st : Seeding) (f : Decoded)
    (hcap : st.currIndex + f.frame_bytes.length ≤ st.songBuf.length) :
    seedIter st f =
      some ({ prebufferedFrames := st.prebufferedFrames + 1,
              currIndex := st.currIndex + f.frame_bytes.length,
              songBuf := st.songBuf.take st.currIndex ++ f.frame_bytes ++
                st.songBuf.drop (st.currIndex + f.frame_bytes.length) },
            readyCheck st.prebufferedFrames ++ relayWrites f.relays f.frame_bytes ++
              [RelayEvent.store f.frame_bytes]) := by
  unfold seedIter
  simp only
  rw [copyFrame_eq _ _ _ _ hcap (Nat.le_refl _), List.take_length]

theorem seedLoop_ready (fs : List Decoded) :
    ∀ (st : Seeding) (e : LoopEnd),
      st.currIndex + ((fs.map (fun f => f.frame_bytes)).flatten).length ≤ st.songBuf.length →
      ∃ st1 tr, seedLoop st fs e = some (st1, tr) ∧
        readyPoints tr st.prebufferedFrames =
          if st.prebufferedFrames ≤ 300 ∧ (300 < st.prebufferedFrames + fs.length ∨
              (st.prebufferedFrames + fs.length = 300 ∧ e = LoopEnd.readFailed))
          then [300] else [] := by
  induction fs with
  | nil =>
    intro st e _
    cases e with
    | disconnected =>
      refine ⟨st, [], rfl, ?_⟩
      simp [readyPoints]
    | readFailed =>
      refine ⟨st, readyCheck st.prebufferedFrames, rfl, ?_⟩
      rw [readyPoints_readyCheck]
      by_cases h : st.prebufferedFrames = 300
      · simp [h]
      · have : ¬ (st.prebufferedFrames ≤ 300 ∧ (300 < st.prebufferedFrames + 0 ∨
            (st.prebufferedFrames + 0 = 300 ∧ True))) := by omega
        simp [h]
  | cons f fs ih =>
    intro st e hcap
    simp only [List.map_cons, List.flatten_cons, List.length_append] at hcap
    have hit := seedIter_eq st f (by omega)
    obtain ⟨st2, tr2, h2, hp2⟩ := ih
      { prebufferedFrames := st.prebufferedFrames + 1,
        currIndex := st.currIndex + f.frame_bytes.length,
        songBuf := st.songBuf.take st.currIndex ++ f.frame_bytes ++
          st.songBuf.drop (st.currIndex + f.frame_bytes.length) } e
      (by simp only [List.length_append, List.length_take, List.length_drop]; omega)
    simp only at hp2
    refine ⟨st2, readyCheck st.prebufferedFrames ++ relayWrites f.relays f.frame_bytes ++
      [RelayEvent.store f.frame_bytes] ++ tr2, by simp only [seedLoop, hit, h2], ?_⟩
    rw [iter_points, hp2]
    simp only [List.length_cons]
    by_cases h300 : st.prebufferedFrames = 300
    · simp [h300]
    · by_cases hlt : st.prebufferedFrames < 300
      · have e1 : st.prebufferedFrames + 1 ≤ 300 := by omega
        have e2 : st.prebufferedFrames ≤ 300 := by omega
        have e3 : st.prebufferedFrames + 1 + fs.length = st.prebufferedFrames + (fs.length + 1) := by
          omega
        simp only [h300, if_false, List.nil_append, e1, e2, e3, true_and]
      · have e1 : ¬ st.prebufferedFrames + 1 ≤ 300 := by omega
        have e2 : ¬ st.prebufferedFrames ≤ 300 := by omega
        simp [h300, e1, e2]


theorem listenLoop_signal (ds : List Inbound) :
    ∀ (st : Listener) (e : LoopEnd) (k : Nat), st.prebufferedFrames = k + 1 →
      st.currIndex + acceptedBytes st.seeder ds ≤ st.songBuf.length →
      ∃ st1 tr, listenLoop st ds e = some (st1, tr) ∧
        st.prebufferedFrames ≤ st1.prebufferedFrames ∧
        (∀ p ∈ readyPoints tr k, p = 299) ∧
        (st1.prebufferedFrames < 300 → readyPoints tr k = []) ∧
        (st.prebufferedFrames ≤ 300 → 300 < st1.prebufferedFrames → readyPoints tr k ≠ []) := by
  induction ds with
  | nil =>
    intro st e k hk _
    cases e with
    | disconnected =>
      exact ⟨st, [], rfl, Nat.le_refl _, by simp [readyPoints], fun _ => by simp [readyPoints],
        fun h1 h2 => by omega⟩
    | readFailed =>
      refine ⟨st, readyCheck st.prebufferedFrames, rfl, Nat.le_refl _, ?_, ?_, fun h1 h2 => by omega⟩
      · intro p hp
        rw [readyPoints_readyCheck] at hp
        by_cases h : st.prebufferedFrames = 300
        · simp only [h, if_true, List.mem_singleton] at hp
          omega
        · simp [h] at hp
      · intro h
        rw [readyPoints_readyCheck]
        have : ¬ st.prebufferedFrames = 300 := by omega
        simp [this]
  | cons d ds ih =>
    intro st e k hk hcap
    have haccept : (st.seeder = "" ∨ st.seeder = d.addr) →
        ∃ st1 tr, listenLoop st (d :: ds) e = some (st1, tr) ∧
          st.prebufferedFrames ≤ st1.prebufferedFrames ∧
          (∀ p ∈ readyPoints tr k, p = 299) ∧
          (st1.prebufferedFrames < 300 → readyPoints tr k = []) ∧
          (st.prebufferedFrames ≤ 300 → 300 < st1.prebufferedFrames →
            readyPoints tr k ≠ []) := by
      intro hs
      have hsd : (if st.seeder = "" then d.addr else st.seeder) = d.addr := by
        rcases hs with h | h
        · simp [h]
        · by_cases h1 : st.seeder = ""
          · simp [h1]
          · simp [h1, h]
      simp only [acceptedBytes, hsd, if_true] at hcap
      have hit := listenIter_accept st d hs (by omega)
      obtain ⟨st2, tr2, h2, hm2, hp2, hn2, hy2⟩ := ih
        { prebufferedFrames := st.prebufferedFrames + 1,
          currIndex := st.currIndex + min d.payload.length 2048,
          seeder := d.addr,
          songBuf := List.take st.currIndex st.songBuf ++ List.take 2048 d.payload ++
            List.drop (st.currIndex + min d.payload.length 2048) st.songBuf }
        e (k + 1) (by simp only; omega)
        (by simp only [List.length_append, List.length_take, List.length_drop]; omega)
      simp only at hm2 hn2 hy2
      refine ⟨st2, readyCheck st.prebufferedFrames ++
        relayWrites d.relays (readFrom d.payload).2 ++
        [RelayEvent.store (List.take 2048 d.payload)] ++ tr2,
        by simp only [listenLoop, hit, h2], by omega, ?_, ?_, ?_⟩
      · intro p hp
        rw [iter_points] at hp
        rcases List.mem_append.mp hp with h | h
        · by_cases h3 : st.prebufferedFrames = 300
          · simp only [h3, if_true, List.mem_singleton] at h
            omega
          · simp [h3] at h
        · exact hp2 p h
      · intro h
        rw [iter_points, hn2 h]
        have h3 : ¬ st.prebufferedFrames = 300 := by omega
        simp [h3]
      · intro h1 h2'
        rw [iter_points]
        by_cases h3 : st.prebufferedFrames = 300
        · simp [h3]
        · have := hy2 (by omega) h2'
          simp [h3, this]
    by_cases hs : st.seeder = ""
    · exact haccept (Or.inl hs)
    · by_cases hd : d.addr = st.seeder
      · exact haccept (Or.inr hd.symm)
      · simp only [acceptedBytes, hs, if_false, hd] at hcap
        have hit := listenIter_discard st d hs hd
        obtain ⟨st2, tr2, h2, hm2, hp2, hn2, hy2⟩ := ih st e k hk hcap
        refine ⟨st2, readyCheck st.prebufferedFrames ++ tr2,
          by simp only [listenLoop, hit, h2], hm2, ?_, ?_, ?_⟩
        · intro p hp
          rw [readyPoints_append, readyPoints_readyCheck, storeCount_readyCheck] at hp
          rcases List.mem_append.mp hp with h | h
          · by_cases h3 : st.prebufferedFrames = 300
            · simp only [h3, if_true, List.mem_singleton] at h
              omega
            · simp [h3] at h
          · exact hp2 p h
        · intro h
          rw [readyPoints_append, readyPoints_readyCheck, storeCount_readyCheck, Nat.add_zero,
            hn2 h]
          have h3 : ¬ st.prebufferedFrames = 300 := by omega
          simp [h3]
        · intro h1 h2'
          rw [readyPoints_append, readyPoints_readyCheck, storeCount_readyCheck, Nat.add_zero]
          by_cases h3 : st.prebufferedFrames = 300
          · simp [h3]
          · have := hy2 h1 h2'
            simp [h3, this]

/-- C7 as amended: when the frames fit the buffer, the decode loop of `seedToPeers`
returns and emits `ready-to-play` at most once: exactly once, with exactly 300 frames
stored before it, when the loop comes back to its head after the 300th frame (more than
300 frames decoded, or exactly 300 and a failed decode ends the loop), and not at all
otherwise; when the frames it accepts fit the buffer, the loop of `listenForMp3` returns,
never emits `ready-to-play` with more than 300 frames stored, emits none when its frame
counter ends the session below the watermark 300, and emits at least one when its frame
counter ends the session above the watermark. -/
theorem ready_signal_at_watermark (songBuf : List Byte) (fs : List Decoded)
    (ds : List Inbound) (e : LoopEnd)
    (hseed : ((fs.map (fun f => f.frame_bytes)).flatten).length ≤ songBuf.length)
    (hlisten : acceptedBytes "" ds ≤ songBuf.length) :
    (∃ st tr, seedToPeers songBuf fs e = some (st, tr) ∧
        readyPoints tr 0 =
          (if 300 < fs.length ∨ (fs.length = 300 ∧ e = LoopEnd.readFailed) then [300] else []) ∧
        readyCount tr =
          (if 300 < fs.length ∨ (fs.length = 300 ∧ e = LoopEnd.readFailed) then 1 else 0)) ∧
      (∃ st tr, listenForMp3 songBuf ds e = some (st, tr) ∧
        (∀ p ∈ readyPoints tr 0, p ≤ 300) ∧
        (st.prebufferedFrames < 300 → readyCount tr = 0) ∧
        (300 < st.prebufferedFrames → 1 ≤ readyCount tr)) := by
  constructor
  · obtain ⟨st, tr, h, hp⟩ := seedLoop_ready fs
      { prebufferedFrames := 0, currIndex := 0, songBuf := songBuf } e (by simpa using hseed)
    simp only [Nat.zero_le, true_and, Nat.zero_add] at hp
    refine ⟨st, tr, h, hp, ?_⟩
    rw [readyCount_eq_length tr 0, hp]
    split <;> rfl
  · obtain ⟨st, tr, h, _, hp, hn, hy⟩ := listenLoop_signal ds
      { prebufferedFrames := 1, currIndex := 0, seeder := "", songBuf := songBuf } e 0 rfl
      (by simpa using hlisten)
    refine ⟨st, tr, h, ?_, ?_, ?_⟩
    · intro p hp1
      have := hp p hp1
      omega
    · intro hlt
      rw [readyCount_eq_length tr 0, hn hlt]
      rfl
    · intro hgt
      rw [readyCount_eq_length tr 0]
      have hne := hy (by simp only; omega) hgt
      cases hr : readyPoints tr 0 with
      | nil => exact absurd hr hne
      | cons x xs => simp

theorem ready_signal_at_watermark_witness :
    ((watermarkFrames.map (fun f => f.frame_bytes)).flatten).length ≤ watermarkBuf.length ∧
      acceptedBytes "" watermarkDatagrams ≤ watermarkBuf.length ∧
      watermarkFrames.length = 301 ∧
      (seedToPeers watermarkBuf watermarkFrames LoopEnd.readFailed).map
          (fun r => readyPoints r.2 0) = some [300] ∧
      (listenForMp3 watermarkBuf watermarkDatagrams LoopEnd.readFailed).map
          (fun r => (r.1.prebufferedFrames, readyCount r.2)) = some (302, 1) ∧
      ((∃ st tr, seedToPeers watermarkBuf watermarkFrames LoopEnd.readFailed = some (st, tr) ∧
          readyPoints tr 0 =
            (if 300 < watermarkFrames.length ∨
                (watermarkFrames.length = 300 ∧ LoopEnd.readFailed = LoopEnd.readFailed)
              then [300] else []) ∧
          readyCount tr =
            (if 300 < watermarkFrames.length ∨
                (watermarkFrames.length = 300 ∧ LoopEnd.readFailed = LoopEnd.readFailed)
              then 1 else 0)) ∧
        (∃ st tr, listenForMp3 watermarkBuf watermarkDatagrams LoopEnd.readFailed =
            some (st, tr) ∧
          (∀ p ∈ readyPoints tr 0, p ≤ 300) ∧
          (st.prebufferedFrames < 300 → readyCount tr = 0) ∧
          (300 < st.prebufferedFrames → 1 ≤ readyCount tr))) :=
  ⟨by set_option maxRecDepth 50000 in decide, by set_option maxRecDepth 50000 in decide,
    by set_option maxRecDepth 50000 in decide,
    by set_option maxRecDepth 100000 in decide, by set_option maxRecDepth 100000 in decide,
    ready_signal_at_watermark watermarkBuf watermarkFrames watermarkDatagrams LoopEnd.readFailed
      (by set_option maxRecDepth 50000 in decide) (by set_option maxRecDepth 50000 in decide)⟩

/-- C7 refuted as stated: a decode session without frames emits no `ready-to-play`; a
listener session of 300 datagrams from one sender emits it with 299 frames stored, not
300; and a listener session of 299 datagrams from the sender, one from another host and
one more from the sender emits it twice. -/
theorem ready_signal_not_once_at_300 :
    (seedToPeers [] [] LoopEnd.readFailed).map (fun r => readyCount r.2) = some 0 ∧
      (listenForMp3 [] (List.replicate 300 emptyDatagram) LoopEnd.disconnected).map
          (fun r => readyPoints r.2 0) = some [299] ∧
      (listenForMp3 [] (List.replicate 299 emptyDatagram ++ [strayDatagram, emptyDatagram])
          LoopEnd.disconnected).map (fun r => readyCount r.2) = some 2 := by
  refine ⟨by decide, ?_, ?_⟩
  · set_option maxRecDepth 50000 in decide
  · set_option maxRecDepth 50000 in decide


/-! ## Handshake handler: the fan-out bound -/

theorem splitColon_ne_nil (cs : List Char) : splitColon cs ≠ [] := by
  induction cs with
  | nil => simp [splitColon]
  | cons c cs ih =>
    unfold splitColon
    by_cases h : c = ':'
    · simp [h]
    · simp only [h, if_false]
      cases hs : splitColon cs with
      | nil => exact absurd hs ih
      | cons w ws => simp

theorem stringsSplit_ne_nil (s : String) : stringsSplit s ≠ [] := by
  unfold stringsSplit
  simp [splitColon_ne_nil]

theorem recordSong_inv (p p1 : Peer) (args : List String) (h : recordSong p args = some p1) :
    p1.seedees = p.seedees ∧ p1.maxSeedees = p.maxSeedees ∧ p1.isSeeder = p.isSeeder ∧
      (p.currentSong ≠ "" → p1 = p) := by
  unfold recordSong at h
  by_cases hc : p.currentSong = ""
  · rw [if_pos hc] at h
    cases args with
    | nil => simp at h
    | cons song rest =>
      simp only [Option.some.injEq] at h
      subst h
      exact ⟨rfl, rfl, rfl, fun hne => absurd hc hne⟩
  · rw [if_neg hc] at h
    simp only [Option.some.injEq] at h
    subst h
    exact ⟨rfl, rfl, rfl, fun _ => rfl⟩

theorem answerRequest_inv (songNames : List String) (p p1 : Peer) (args : List String)
    (ip : String) (ev : List PeerEffect) (h : answerRequest songNames p args ip = some (p1, ev)) :
    p1 = p := by
  unfold answerRequest at h
  by_cases hs : p.isSeeder = true
  · rw [if_pos hs] at h
    simp only [Option.some.injEq, Prod.mk.injEq] at h
    exact h.1.symm
  · rw [if_neg hs] at h
    cases args with
    | nil => simp at h
    | cons song rest =>
      simp only at h
      split_ifs at h <;>
        (simp only [Option.some.injEq, Prod.mk.injEq] at h
         exact h.1.symm)

theorem handlePacket_inv (songNames : List String) (p p1 : Peer) (s ip : String)
    (ev : List PeerEffect) (h : handlePacket songNames p s ip = some (p1, ev))
    (hb : (p.seedees.length : Int) ≤ p.maxSeedees) :
    (p1.seedees.length : Int) ≤ p1.maxSeedees ∧ p1.maxSeedees = p.maxSeedees ∧
      (p.isSeeder = true → p1.isSeeder = true) ∧
      (p.currentSong ≠ "" → p1.currentSong ≠ "") := by
  unfold handlePacket at h
  generalize hsp : stringsSplit s = l at h
  cases l with
  | nil => exact absurd hsp (stringsSplit_ne_nil s)
  | cons tag args =>
    simp only at h
    by_cases h1 : tag = "request"
    · rw [if_pos h1] at h
      cases hr : recordSong p args with
      | none => simp [hr] at h
      | some q =>
        simp only [hr] at h
        have hq := answerRequest_inv songNames q p1 args ip ev h
        obtain ⟨e1, e2, e3, e4⟩ := recordSong_inv p q args hr
        subst hq
        refine ⟨by rw [e1, e2]; exact hb, e2, fun x => by rw [e3]; exact x, ?_⟩
        intro hne
        rw [e4 hne]
        exact hne
    · rw [if_neg h1] at h
      by_cases h2 : tag = "confirm"
      · rw [if_pos h2] at h
        split_ifs at h <;>
          (simp only [Option.some.injEq, Prod.mk.injEq] at h
           obtain ⟨rfl, _⟩ := h
           first
             | exact ⟨hb, rfl, fun x => x, fun x => x⟩
             | exact ⟨hb, rfl, fun _ => rfl, fun x => x⟩)
      · rw [if_neg h2] at h
        by_cases h3 : tag = "accept"
        · rw [if_pos h3] at h
          split_ifs at h with h4 h5
          · simp only [Option.some.injEq, Prod.mk.injEq] at h
            obtain ⟨rfl, _⟩ := h
            simp only [Bool.and_eq_true, decide_eq_true_eq] at h4
            refine ⟨?_, rfl, fun x => x, fun x => x⟩
            simp only [List.length_append, List.length_singleton]
            push_cast
            omega
          · simp only [Option.some.injEq, Prod.mk.injEq] at h
            obtain ⟨rfl, _⟩ := h
            exact ⟨hb, rfl, fun x => x, fun x => x⟩
        · rw [if_neg h3] at h
          split_ifs at h <;>
            (simp only [Option.some.injEq, Prod.mk.injEq] at h
             obtain ⟨rfl, _⟩ := h
             exact ⟨hb, rfl, fun x => x, fun x => x⟩)

theorem handlePacket_total (songNames : List String) (p : Peer) (s ip : String)
    (hseed : p.isSeeder = true)
    (hreq : p.currentSong ≠ "" ∨ stringsSplit s ≠ ["request"]) :
    ∃ p1 ev, handlePacket songNames p s ip = some (p1, ev) := by
  unfold handlePacket
  generalize hsp : stringsSplit s = l at hreq
  cases l with
  | nil => exact absurd hsp (stringsSplit_ne_nil s)
  | cons tag args =>
    simp only
    by_cases h1 : tag = "request"
    · rw [if_pos h1]
      have hrec : ∃ q, recordSong p args = some q ∧ q.isSeeder = true := by
        unfold recordSong
        by_cases hc : p.currentSong = ""
        · rw [if_pos hc]
          cases args with
          | nil =>
            rcases hreq with h | h
            · exact absurd hc h
            · exact absurd (by rw [h1]) h
          | cons song rest => exact ⟨_, rfl, hseed⟩
        · rw [if_neg hc]
          exact ⟨p, rfl, hseed⟩
      obtain ⟨q, hq, hqs⟩ := hrec
      simp only [hq, answerRequest, hqs, if_true]
      exact ⟨_, _, rfl⟩
    · rw [if_neg h1]
      by_cases h2 : tag = "confirm"
      · rw [if_pos h2, if_pos hseed]
        exact ⟨_, _, rfl⟩
      · rw [if_neg h2]
        by_cases h3 : tag = "accept"
        · rw [if_pos h3]
          by_cases h4 : (p.seedees.length : Int) < p.maxSeedees
          · simp only [hseed, h4, decide_True, Bool.and_self, if_true]
            exact ⟨_, _, rfl⟩
          · have h5 : (p.seedees.length : Int) ≥ p.maxSeedees := by omega
            simp only [hseed, h4, h5, decide_True, decide_False, Bool.and_self, Bool.and_false,
              Bool.false_eq_true, if_true, if_false]
            exact ⟨_, _, rfl⟩
        · rw [if_neg h3]
          split_ifs <;> exact ⟨_, _, rfl⟩

theorem listenForPeers_inv (songNames : List String) (pkts : List (String × String)) :
    ∀ (p p1 : Peer) (ev : List PeerEffect), listenForPeers songNames p pkts = some (p1, ev) →
      (p.seedees.length : Int) ≤ p.maxSeedees →
      (p1.seedees.length : Int) ≤ p1.maxSeedees ∧ p1.maxSeedees = p.maxSeedees := by
  induction pkts with
  | nil =>
    intro p p1 ev h hb
    simp only [listenForPeers, Option.some.injEq, Prod.mk.injEq] at h
    obtain ⟨rfl, _⟩ := h
    exact ⟨hb, rfl⟩
  | cons pk pkts ih =>
    intro p p1 ev h hb
    obtain ⟨s, ip⟩ := pk
    simp only [listenForPeers] at h
    cases h1 : handlePacket songNames p s ip with
    | none => simp [h1] at h
    | some r1 =>
      obtain ⟨q, ev1⟩ := r1
      simp only [h1] at h
      cases h2 : listenForPeers songNames q pkts with
      | none => simp [h2] at h
      | some r2 =>
        obtain ⟨q2, ev2⟩ := r2
        simp only [h2, Option.some.injEq, Prod.mk.injEq] at h
        obtain ⟨rfl, _⟩ := h
        obtain ⟨hq, hm, _, _⟩ := handlePacket_inv songNames p q s ip ev1 h1 hb
        obtain ⟨hq2, hm2⟩ := ih q q2 ev2 h2 hq
        exact ⟨hq2, hm2.trans hm⟩

theorem listenForPeers_total (songNames : List String) (pkts : List (String × String)) :
    ∀ (p : Peer), p.isSeeder = true → (p.seedees.length : Int) ≤ p.maxSeedees →
      (p.currentSong ≠ "" ∨ ∀ pk ∈ pkts, stringsSplit pk.1 ≠ ["request"]) →
      ∃ p1 ev, listenForPeers songNames p pkts = some (p1, ev) := by
  induction pkts with
  | nil =>
    intro p _ _ _
    exact ⟨p, [], rfl⟩
  | cons pk pkts ih =>
    intro p hseed hb hreq
    obtain ⟨s, ip⟩ := pk
    have hreq1 : p.currentSong ≠ "" ∨ stringsSplit s ≠ ["request"] := by
      rcases hreq with h | h
      · exact Or.inl h
      · exact Or.inr (h (s, ip) (List.mem_cons_self _ _))
    obtain ⟨q, ev1, h1⟩ := handlePacket_total songNames p s ip hseed hreq1
    obtain ⟨hq, _, hs, hc⟩ := handlePacket_inv songNames p q s ip ev1 h1 hb
    have hreq2 : q.currentSong ≠ "" ∨ ∀ pk ∈ pkts, stringsSplit pk.1 ≠ ["request"] := by
      rcases hreq with h | h
      · exact Or.inl (hc h)
      · exact Or.inr (fun x hx => h x (List.mem_cons_of_mem _ hx))
    obtain ⟨q2, ev2, h2⟩ := ih q (hs hseed) hq hreq2
    exact ⟨q2, ev1 ++ ev2, by simp only [listenForPeers, h1, h2]⟩

theorem take_request_free (pkts : List (String × String)) (n : Nat)
    (h : ∀ pk ∈ pkts, stringsSplit pk.1 ≠ ["request"]) :
    ∀ pk ∈ pkts.take n, stringsSplit pk.1 ≠ ["request"] :=
  fun pk hpk => h pk (List.mem_of_mem_take hpk)

/-- C11: a seeding peer that starts with an empty downstream set and a fan-out limit
`maxSeedees ≥ 0` has `len(seedees) ≤ maxSeedees` after every prefix of every sequence of
handshake packets it handles, and it handles every prefix when it has a song recorded
(or no packet is a `request` without a song, the one packet on which a seeder without a
recorded song panics); an `accept` received with fewer than `maxSeedees` reserved relays
appends the sender to `seedees`, sends exactly five `confirm` packets to it and marks it
responded, and an `accept` received with the set full marks the sender responded, leaves
`seedees` as it is and sends nothing. -/
theorem fanout_bound (songNames : List String) (p : Peer) (pkts : List (String × String))
    (hseed : p.isSeeder = true) (hempty : p.seedees = []) (hmax : 0 ≤ p.maxSeedees) :
    (∀ n p1 ev, listenForPeers songNames p (pkts.take n) = some (p1, ev) →
        (p1.seedees.length : Int) ≤ p.maxSeedees) ∧
      ((p.currentSong ≠ "" ∨ ∀ pk ∈ pkts, stringsSplit pk.1 ≠ ["request"]) →
        ∀ n, ∃ p1 ev, listenForPeers songNames p (pkts.take n) = some (p1, ev) ∧
          (p1.seedees.length : Int) ≤ p.maxSeedees) ∧
      (∀ (q : Peer) (s ip : String), q.isSeeder = true →
        (stringsSplit s).head? = some "accept" →
        ((q.seedees.length : Int) < q.maxSeedees →
          handlePacket songNames q s ip =
            some ({ q with seedees := q.seedees ++ [ip],
                           peerToConn := mapSet q.peerToConn ip true },
              [PeerEffect.writeTo "confirm" ip 6121, PeerEffect.writeTo "confirm" ip 6121,
               PeerEffect.writeTo "confirm" ip 6121, PeerEffect.writeTo "confirm" ip 6121,
               PeerEffect.writeTo "confirm" ip 6121])) ∧
        (q.maxSeedees ≤ (q.seedees.length : Int) →
          handlePacket songNames q s ip =
            some ({ q with peerToConn := mapSet q.peerToConn ip true }, [])) ∧
        mapFind (mapSet q.peerToConn ip true) ip = some true) := by
  have hb : (p.seedees.length : Int) ≤ p.maxSeedees := by
    rw [hempty]
    simpa using hmax
  have bound : ∀ n p1 ev, listenForPeers songNames p (pkts.take n) = some (p1, ev) →
      (p1.seedees.length : Int) ≤ p.maxSeedees := by
    intro n p1 ev h
    obtain ⟨h1, h2⟩ := listenForPeers_inv songNames (pkts.take n) p p1 ev h hb
    rw [← h2]
    exact h1
  refine ⟨bound, ?_, ?_⟩
  · intro hreq n
    have hreq1 : p.currentSong ≠ "" ∨ ∀ pk ∈ pkts.take n, stringsSplit pk.1 ≠ ["request"] := by
      rcases hreq with h | h
      · exact Or.inl h
      · exact Or.inr (take_request_free pkts n h)
    obtain ⟨p1, ev, h⟩ := listenForPeers_total songNames (pkts.take n) p hseed hb hreq1
    exact ⟨p1, ev, h, bound n p1 ev h⟩
  · intro q s ip hq htag
    have hne1 : ¬ ("accept" : String) = "request" := by decide
    have hne2 : ¬ ("accept" : String) = "confirm" := by decide
    refine ⟨?_, ?_, by simp [mapFind_mapSet]⟩
    · intro hlt
      unfold handlePacket
      generalize hsp : stringsSplit s = l at htag
      cases l with
      | nil => simp at htag
      | cons tag args =>
        simp only [List.head?_cons, Option.some.injEq] at htag
        subst htag
        simp only [hne1, hne2, if_false, if_true, hq, hlt, decide_True, Bool.and_self]
        rfl
    · intro hge
      unfold handlePacket
      generalize hsp : stringsSplit s = l at htag
      cases l with
      | nil => simp at htag
      | cons tag args =>
        simp only [List.head?_cons, Option.some.injEq] at htag
        subst htag
        have hnlt : ¬ (q.seedees.length : Int) < q.maxSeedees := by omega
        have hge' : (q.seedees.length : Int) ≥ q.maxSeedees := hge
        simp only [hne1, hne2, if_false, if_true, hq, hnlt, hge', decide_True, decide_False,
          Bool.and_self, Bool.and_false, Bool.false_eq_true]

theorem fanout_bound_witness :
    sampleSource.isSeeder = true ∧ sampleSource.seedees = [] ∧ 0 ≤ sampleSource.maxSeedees ∧
      sampleSource.currentSong ≠ "" ∧
      listenForPeers ["song1.mp3"] sampleSource samplePackets =
        some ({ isSeeder := true, isSourceSeeder := true, alreadySeeding := true,
                alreadyListeningForMp3 := false, seedees := ["10.0.0.2"],
                peerToConn := [("10.0.0.4", true), ("10.0.0.3", true), ("10.0.0.2", true)],
                currentSong := "song1.mp3", maxSeedees := 1 },
          [PeerEffect.writeTo "confirm" "10.0.0.2" 6121, PeerEffect.writeTo "confirm" "10.0.0.2" 6121,
           PeerEffect.writeTo "confirm" "10.0.0.2" 6121, PeerEffect.writeTo "confirm" "10.0.0.2" 6121,
           PeerEffect.writeTo "confirm" "10.0.0.2" 6121,
           PeerEffect.writeTo "reject" "10.0.0.5" 6121]) ∧
      ((∀ n p1 ev, listenForPeers ["song1.mp3"] sampleSource (samplePackets.take n) = some (p1, ev) →
          (p1.seedees.length : Int) ≤ sampleSource.maxSeedees) ∧
        ((sampleSource.currentSong ≠ "" ∨
            ∀ pk ∈ samplePackets, stringsSplit pk.1 ≠ ["request"]) →
          ∀ n, ∃ p1 ev, listenForPeers ["song1.mp3"] sampleSource (samplePackets.take n) =
            some (p1, ev) ∧ (p1.seedees.length : Int) ≤ sampleSource.maxSeedees) ∧
        (∀ (q : Peer) (s ip : String), q.isSeeder = true →
          (stringsSplit s).head? = some "accept" →
          ((q.seedees.length : Int) < q.maxSeedees →
            handlePacket ["song1.mp3"] q s ip =
              some ({ q with seedees := q.seedees ++ [ip],
                             peerToConn := mapSet q.peerToConn ip true },
                [PeerEffect.writeTo "confirm" ip 6121, PeerEffect.writeTo "confirm" ip 6121,
                 PeerEffect.writeTo "confirm" ip 6121, PeerEffect.writeTo "confirm" ip 6121,
                 PeerEffect.writeTo "confirm" ip 6121])) ∧
          (q.maxSeedees ≤ (q.seedees.length : Int) →
            handlePacket ["song1.mp3"] q s ip =
              some ({ q with peerToConn := mapSet q.peerToConn ip true }, [])) ∧
          mapFind (mapSet q.peerToConn ip true) ip = some true)) :=
  ⟨by decide, by decide, by decide, by decide, by decide,
    fanout_bound ["song1.mp3"] sampleSource samplePackets (by decide) (by decide) (by decide)⟩

end Mob
